import Mathlib

/-!
# go-msi: the `add-files` tree merge, property parsing and command generation

A shallow embedding of `msi/main.go`.  Go strings are `String`, slices are
`List`, a run-time panic (index out of range) is `none`, and an `error` result
is a value of `Except`.  The types of package `manifest` are declared here with
the fields that `main.go` reads and writes.
-/

namespace Msi

/-! ## Data model (package `manifest`) -/

/-- Modelled from the spec: `manifest.File`, whose declaration is outside
`main.go`: a leaf holding a slash separated path and an optional persistent
identifier.  `manifest.File{Path: p}` leaves the identifier at its zero value. -/
structure File where
  Path : String
  ID : Option String
deriving DecidableEq, Repr

/-- Modelled from the spec: `manifest.Directory`, whose declaration is outside
`main.go`: a named node owning an ordered list of files and an ordered list of
child directories. -/
inductive Directory where
  | mk (Name : String) (Files : List File) (Directories : List Directory)
deriving Repr

mutual
/-- Equality of directory trees is decidable. -/
def Directory.decEq : (a b : Directory) → Decidable (a = b)
  | Directory.mk n fs ds, Directory.mk m gs rs =>
    if h1 : n = m then
      if h2 : fs = gs then
        match Directory.decEqList ds rs with
        | isTrue h3 => isTrue (by rw [h1, h2, h3])
        | isFalse h3 => isFalse (fun h => h3 (by injection h))
      else isFalse (fun h => h2 (by injection h))
    else isFalse (fun h => h1 (by injection h))
/-- Equality of lists of directory trees is decidable. -/
def Directory.decEqList : (a b : List Directory) → Decidable (a = b)
  | [], [] => isTrue rfl
  | [], _ :: _ => isFalse (fun h => by cases h)
  | _ :: _, [] => isFalse (fun h => by cases h)
  | a :: l, b :: r =>
    match Directory.decEq a b with
    | isTrue h1 =>
      match Directory.decEqList l r with
      | isTrue h2 => isTrue (by rw [h1, h2])
      | isFalse h2 => isFalse (fun h => h2 (by injection h))
    | isFalse h1 => isFalse (fun h => h1 (by injection h))
end

instance : DecidableEq Directory := Directory.decEq

namespace Directory

/-- Field `Name`. -/
def Name : Directory → String
  | mk n _ _ => n

/-- Field `Files`. -/
def Files : Directory → List File
  | mk _ fs _ => fs

/-- Field `Directories`. -/
def Directories : Directory → List Directory
  | mk _ _ ds => ds

end Directory

/-! ## `addFile` (main.go, lines 421-442) -/

/-- The `for i, d := range dir.Directories` loop of `addFile` together with the
two statements after it.  `k` is the recursive call `addFile(·, file, path[1:])`.
At the first `d` with `d.Name == name` slot `i` is overwritten with `k d` and the
function returns; when no sibling matches, `k` of a fresh
`manifest.Directory{Name: name}` is appended. -/
def addFileDirs (name : String) (k : Directory → Option Directory) :
    List Directory → Option (List Directory)
  | [] => (k (Directory.mk name [] [])).map (fun d => [d])
  | d :: ds =>
    if d.Name = name then (k d).map (fun d1 => d1 :: ds)
    else (addFileDirs name k ds).map (fun ds1 => d :: ds1)

/-- `addFile(dir, file, path)`.  `none` is the index-out-of-range panic of
`path[0]`, which is reached exactly when `len(path) == 0`. -/
def addFile (dir : Directory) (file : File) : List String → Option Directory
  | [] => none
  | [_] =>
    if dir.Files.any (fun f => decide (f.Path = file.Path)) then some dir
    else some (Directory.mk dir.Name (dir.Files ++ [file]) dir.Directories)
  | s :: t :: rest =>
    (addFileDirs s (fun d => addFile d file (t :: rest)) dir.Directories).map
      (fun ds => Directory.mk dir.Name dir.Files ds)

/-! ## Package `strings` -/

namespace strings

/-- The step of the loop of `genSplit` for a one-byte separator:
`m := Index(s, sep)` and the two slices `s[:m]` and `s[m+len(sep):]`; `none` when
`m < 0`. -/
def cut (sep : Char) : List Char → Option (List Char × List Char)
  | [] => none
  | c :: cs =>
    if c = sep then some ([], cs)
    else
      match cut sep cs with
      | none => none
      | some (a, b) => some (c :: a, b)

/-- The loop `for i < n` of `genSplit`, with `k` iterations left, and the final
`a[i] = s`. -/
def genSplitLoop (sep : Char) : Nat → List Char → List (List Char)
  | 0, s => [s]
  | k + 1, s =>
    match cut sep s with
    | none => [s]
    | some (a, b) => a :: genSplitLoop sep k b

/-- The library function `genSplit(s, sep, 0, n)` for a one-byte separator.  The
bound `len(s)+1` only limits the allocation: the loop stops at the last
separator, so counting characters instead of bytes gives the same slices. -/
def genSplit (s : List Char) (sep : Char) (n : Int) : List (List Char) :=
  if n = 0 then []
  else
    let n1 : Nat := if n < 0 then s.count sep + 1 else n.toNat
    let n2 : Nat := if n1 > s.length + 1 then s.length + 1 else n1
    genSplitLoop sep (n2 - 1) s

/-- The library function `strings.Split(s, sep)`. -/
def Split (s : String) (sep : Char) : List String :=
  (genSplit s.data sep (-1)).map String.mk

/-- The library function `strings.SplitN(s, sep, n)`. -/
def SplitN (s : String) (sep : Char) (n : Int) : List String :=
  (genSplit s.data sep n).map String.mk

end strings

/-! ## Errors, manifest and environment -/

/-- The Go `error` values that `main.go` returns. -/
inductive GoError where
  /-- an error returned by a library call, with its text -/
  | lib (text : String)
  /-- `fmt.Errorf` with a constant text -/
  | errorf (text : String)
  /-- the error `fmt.Errorf("files %q do not exist", pattern)` of `glob` -/
  | filesDoNotExist (pattern : String)
  /-- `cli.NewExitError(text, code)` -/
  | exitText (text : String) (code : Int)
  /-- `cli.NewExitError(err, code)` -/
  | exitErr (cause : GoError) (code : Int)
deriving DecidableEq, Repr

/-- The exit status that `Main` gives the process for the result of a command
(main.go, lines 312-318): the code of a `cli.ExitError`, 1 for another error. -/
def exitStatus : Option GoError → Int
  | none => 0
  | some (GoError.exitText _ c) => c
  | some (GoError.exitErr _ c) => c
  | some _ => 1

/-- Modelled from the spec: `manifest.Property`, declared outside `main.go`: a
key and a pointer to a value. -/
structure Property where
  ID : String
  Value : Option String
deriving DecidableEq, Repr

/-- Modelled from the spec: the version fields of the manifest. -/
structure Version where
  User : String
  Display : String
  MSI : String
deriving DecidableEq, Repr

/-- Modelled from the spec: the distribution metadata of the manifest. -/
structure Choco where
  ID : String
  BuildDir : String
  MsiFile : String
  MsiSum : String
  ChangeLog : String
deriving DecidableEq, Repr

/-- Modelled from the spec: `manifest.WixManifest`, declared outside `main.go`,
with the fields that `main.go` reads and writes. -/
structure WixManifest where
  Compression : String
  Version : Version
  License : String
  Properties : List Property
  Choco : Choco
  Directory : Directory
deriving DecidableEq, Repr

/-- The zero value `manifest.WixManifest{}`. -/
def WixManifest.zero : WixManifest :=
  { Compression := "", Version := ⟨"", "", ""⟩, License := "", Properties := [],
    Choco := ⟨"", "", "", "", ""⟩, Directory := Directory.mk "" [] [] }

/-- The calls that leave `main.go`: the file system and the packages
`doublestar`, `filepath`, `manifest`, `templates` and `wix`.  A call that can
return an error is an `Except` whose error is the text of the Go error. -/
structure Env where
  /-- `doublestar.Glob(pattern)`; the Go slice is `nil` exactly when nothing
  matches, which is the empty list here -/
  doublestarGlob : String → Except String (List String)
  /-- `os.Stat(name)` followed by `info.IsDir()` -/
  statIsDir : String → Except String Bool
  /-- `filepath.Abs(path)` -/
  abs : String → Except String String
  /-- `filepath.Rel(basepath, targpath)` -/
  rel : String → String → Except String String
  /-- `filepath.Join(a, b)` -/
  join : String → String → String
  /-- `filepath.ToSlash(path)` -/
  toSlash : String → String
  /-- `filepath.Base(path)` -/
  base : String → String
  /-- `wixFile.Load(path)` on a zero manifest -/
  load : String → Except String WixManifest
  /-- `wixFile.Write(path)`: the error, if any -/
  write : WixManifest → String → Option String
  /-- `wixFile.NeedGUID()` -/
  needGUID : WixManifest → Bool
  /-- `wixFile.Normalize()` -/
  normalize : WixManifest → Except String WixManifest
  /-- `wixFile.RewriteFilePaths(out)` -/
  rewriteFilePaths : WixManifest → String → Except String WixManifest
  /-- `templates.Find(src, pattern)` -/
  templatesFind : String → String → Except String (List String)
  /-- `wix.GenerateCmd(&wixFile, templates, msi, arch, bin)` -/
  generateCmd : WixManifest → List String → String → String → String → String
  /-- `ioutil.WriteFile(name, data, 0644)`: the error, if any -/
  writeFile : String → String → Option String

/-- How a function with a callback ends: normally, by returning an error, or by
a run-time panic; the first two with the state the callback has built. -/
inductive Run (σ : Type) where
  | ok (st : σ)
  | fail (e : GoError) (st : σ)
  | panic
deriving DecidableEq, Repr

/-! ## `glob` (main.go, lines 444-478) -/

/-- The inner loop `for _, file := range strings.Split(pattern, ",")` of `glob`:
each expression is expanded and the expansions are concatenated in `matches`. -/
def globExpand (env : Env) (dir pattern : String) (fail : Bool) :
    List String → List String → Except GoError (List String)
  | [], acc => Except.ok acc
  | file :: files, acc =>
    match env.doublestarGlob (env.join dir file) with
    | Except.error e => Except.error (GoError.lib e)
    | Except.ok m =>
      if fail && m.isEmpty then Except.error (GoError.filesDoNotExist pattern)
      else globExpand env dir pattern fail files (acc ++ m)

/-- The loop `for _, match := range matches` of `glob`; `f` is the callback. -/
def globEmit {σ : Type} (env : Env) (dir : String) (f : σ → String → Option σ) :
    List String → σ → Run σ
  | [], st => Run.ok st
  | m :: ms, st =>
    match env.statIsDir m with
    | Except.error e => Run.fail (GoError.lib e) st
    | Except.ok true => globEmit env dir f ms st
    | Except.ok false =>
      match env.abs dir with
      | Except.error e => Run.fail (GoError.exitText e 1) st
      | Except.ok a =>
        match env.rel a m with
        | Except.error e => Run.fail (GoError.lib e) st
        | Except.ok r =>
          match f st (env.toSlash r) with
          | none => Run.panic
          | some st1 => globEmit env dir f ms st1

/-- `glob(dir, patterns, f, fail)`, with the state of the callback `f` passed
along. -/
def glob {σ : Type} (env : Env) (dir : String) (f : σ → String → Option σ) (fail : Bool) :
    List String → σ → Run σ
  | [], st => Run.ok st
  | pattern :: patterns, st =>
    match globExpand env dir pattern fail (strings.Split pattern ',') [] with
    | Except.error e => Run.fail e st
    | Except.ok ms =>
      match globEmit env dir f ms st with
      | Run.ok st1 => glob env dir f fail patterns st1
      | Run.fail e st1 => Run.fail e st1
      | Run.panic => Run.panic

/-! ## `addFiles` (main.go, lines 371-419) -/

/-- The flags of `add-files`. -/
structure AddFilesArgs where
  path : String
  dir : String
  includes : List String
  excludes : List String
  test : Bool

/-- What a run of `addFiles` leaves: the error it returns, the manifest in the
local `wixFile`, and the manifest given to `wixFile.Write(path)` when that call is
made. -/
structure AddFilesResult where
  err : Option GoError
  wixFile : WixManifest
  written : Option WixManifest
deriving DecidableEq, Repr

/-- The callback of the first `glob` of `addFiles`: `out[match] = true`. -/
def addFilesExclude (out : List String) (m : String) : Option (List String) :=
  some (m :: out)

/-- The callback of the second `glob` of `addFiles`. -/
def addFilesInclude (env : Env) (dir : String) (out : List String)
    (wixFile : WixManifest) (m : String) : Option WixManifest :=
  let file : File := { Path := env.toSlash (env.join dir m), ID := none }
  if m ∈ out then some wixFile
  else
    let path := strings.Split m '/'
    match addFile wixFile.Directory file path with
    | none => none
    | some d => some { wixFile with Directory := d }

/-- `addFiles(c)`; `none` is a run-time panic. -/
def addFiles (env : Env) (a : AddFilesArgs) : Option AddFilesResult :=
  if a.dir = "" then
    some ⟨some (GoError.exitErr (GoError.errorf "--dir argument is required") 1),
      WixManifest.zero, none⟩
  else if a.includes.length = 0 then
    some ⟨some (GoError.exitErr (GoError.errorf "--includes argument is required") 1),
      WixManifest.zero, none⟩
  else
    match env.load a.path with
    | Except.error e => some ⟨some (GoError.exitText e 1), WixManifest.zero, none⟩
    | Except.ok wixFile =>
      match glob env a.dir addFilesExclude false a.excludes [] with
      | Run.panic => none
      | Run.fail e _ => some ⟨some (GoError.exitErr e 1), wixFile, none⟩
      | Run.ok out =>
        match glob env a.dir (addFilesInclude env a.dir out) true a.includes wixFile with
        | Run.panic => none
        | Run.fail e w => some ⟨some (GoError.exitErr e 1), w, none⟩
        | Run.ok w =>
          if a.test then some ⟨some (GoError.errorf "file list not up to date"), w, none⟩
          else
            match env.write w a.path with
            | some e => some ⟨some (GoError.exitText e 1), w, some w⟩
            | none => some ⟨none, w, some w⟩

/-! ## `addProperties` (main.go, lines 855-870) -/

/-- `addProperties(wixFile, properties)`: the manifest behind the pointer when
the function returns, and the error. -/
def addProperties (wixFile : WixManifest) : List String → WixManifest × Option GoError
  | [] => (wixFile, none)
  | prop :: properties =>
    match strings.SplitN prop '=' 2 with
    | id :: v :: _ =>
      addProperties
        { wixFile with Properties := wixFile.Properties ++ [{ ID := id, Value := some v }] }
        properties
    | _ => (wixFile, some (GoError.errorf "property definition must be of the form Id=Value"))

/-! ## `generateWixCommands` (main.go, lines 627-702) -/

/-- The flags of `gen-wix-cmd`. -/
structure WixCmdArgs where
  path : String
  src : String
  out : String
  msi : String
  arch : String
  bin : String

/-- The calls with an effect outside the function, in the order they are made. -/
inductive Effect where
  | println (text : String)
  | generateCmd (wixFile : WixManifest) (templates : List String) (msi arch bin : String)
  | writeFile (name data : String)
deriving DecidableEq, Repr

/-- `generateWixCommands(c)`: the effects and the returned error. -/
def generateWixCommands (env : Env) (a : WixCmdArgs) : List Effect × Option GoError :=
  if a.msi = "" then ([], some (GoError.exitText "--msi parameter must be set" 1))
  else
    match env.templatesFind a.src "*.wxs" with
    | Except.error e => ([], some (GoError.exitText e 1))
    | Except.ok templates =>
      if templates.length = 0 then
        ([], some (GoError.exitText "No templates *.wxs found in this directory" 1))
      else
        let builtTemplates := templates.map (fun tpl => env.join a.out (env.base tpl))
        match env.load a.path with
        | Except.error e => ([], some (GoError.exitText e 1))
        | Except.ok wixFile =>
          if env.needGUID wixFile then
            ([Effect.println "The manifest needs Guid",
              Effect.println "To update your file automatically run:",
              Effect.println "     go-msi set-guid"],
              some (GoError.exitText "Cannot proceed, manifest file is incomplete" 1))
          else
            match env.normalize wixFile with
            | Except.error e => ([], some (GoError.exitText e 1))
            | Except.ok w1 =>
              match env.rewriteFilePaths w1 a.out with
              | Except.error e => ([], some (GoError.exitText e 1))
              | Except.ok w2 =>
                match env.abs a.msi with
                | Except.error e => ([], some (GoError.exitText e 1))
                | Except.ok msi1 =>
                  match env.abs a.out with
                  | Except.error e => ([], some (GoError.exitText e 1))
                  | Except.ok absOut =>
                    match env.rel absOut msi1 with
                    | Except.error e => ([], some (GoError.exitText e 1))
                    | Except.ok msi2 =>
                      match (if a.bin = "" then Except.ok a.bin else env.abs a.bin) with
                      | Except.error e => ([], some (GoError.exitText e 1))
                      | Except.ok bin1 =>
                        let cmdStr := env.generateCmd w2 builtTemplates msi2 a.arch bin1
                        let targetFile := env.join a.out "build.bat"
                        let effects :=
                          [Effect.generateCmd w2 builtTemplates msi2 a.arch bin1,
                            Effect.writeFile targetFile cmdStr]
                        match env.writeFile targetFile cmdStr with
                        | some e => (effects, some (GoError.exitText e 1))
                        | none => (effects, none)

/-! ## Concrete inputs -/

/-- A file system for the scenarios: the directory `/base` holds `a.txt`,
`sub/b.txt` and `sub/c.tmp`; `initial` is the manifest stored at every path.
Paths are joined with a slash and every path used is absolute already. -/
def scenarioEnv (initial : WixManifest) : Env where
  doublestarGlob p :=
    if p = "/base/**/*.txt" then Except.ok ["/base/a.txt", "/base/sub/b.txt"]
    else if p = "/base/a.txt" then Except.ok ["/base/a.txt"]
    else if p = "/base/sub/b.txt" then Except.ok ["/base/sub/b.txt"]
    else if p = "/base/sub/c.tmp" then Except.ok ["/base/sub/c.tmp"]
    else Except.ok []
  statIsDir p :=
    if p = "/base/a.txt" ∨ p = "/base/sub/b.txt" ∨ p = "/base/sub/c.tmp" then Except.ok false
    else if p = "/base" ∨ p = "/base/sub" then Except.ok true
    else Except.error "no such file or directory"
  abs p := Except.ok p
  rel a t :=
    if a = "/base" ∧ t = "/base/a.txt" then Except.ok "a.txt"
    else if a = "/base" ∧ t = "/base/sub/b.txt" then Except.ok "sub/b.txt"
    else if a = "/base" ∧ t = "/base/sub/c.tmp" then Except.ok "sub/c.tmp"
    else Except.error "Rel: can't make the target relative to the base"
  join a b := a ++ "/" ++ b
  toSlash p := p
  base p := p
  load _ := Except.ok initial
  write _ _ := none
  needGUID _ := false
  normalize w := Except.ok w
  rewriteFilePaths w _ := Except.ok w
  templatesFind _ _ := Except.ok []
  generateCmd _ _ _ _ _ := ""
  writeFile _ _ := none

/-- The flags of the scenario: `--dir /base --includes **/*.txt --excludes
sub/c.tmp`. -/
def scenarioArgs : AddFilesArgs :=
  { path := "wix.json", dir := "/base", includes := ["**/*.txt"],
    excludes := ["sub/c.tmp"], test := false }

/-- The tree the scenario produces. -/
def scenarioTree : Directory :=
  Directory.mk "" [⟨"/base/a.txt", none⟩]
    [Directory.mk "sub" [⟨"/base/sub/b.txt", none⟩] []]

/-- Merging a list of matches, each a File with its path segments, into a tree:
the successive assignments `wixFile.Directory = addFile(wixFile.Directory, file,
path)` made by the include callback of `addFiles`. -/
def mergeMatches (d : Directory) : List (File × List String) → Option Directory
  | [] => some d
  | m :: ms => (addFile d m.1 m.2).bind (fun r => mergeMatches r ms)

/-! ## Observations on trees -/

/-- The first child directory of `d` called `name`, the one `addFile` descends
into. -/
def Directory.child (d : Directory) (name : String) : Option Directory :=
  d.Directories.find? (fun c => decide (c.Name = name))

/-- The directory reached from `d` by descending through the children named by
the segments, in order. -/
def descend (d : Directory) : List String → Option Directory
  | [] => some d
  | s :: rest =>
    match d.child s with
    | none => none
    | some c => descend c rest

/-- Some File of `d` itself has path `path`. -/
def Directory.hasFile (d : Directory) (path : String) : Bool :=
  d.Files.any (fun f => decide (f.Path = path))

/-- A File with path `path` is listed in the directory addressed by all but the
last segment of `p`. -/
def present (d : Directory) (path : String) (p : List String) : Bool :=
  match descend d p.dropLast with
  | some t => t.hasFile path
  | none => false

/-- No two entries of a list have the same key. -/
def distinctBy {α : Type} (key : α → String) : List α → Bool
  | [] => true
  | a :: l => !(l.any (fun b => decide (key b = key a))) && distinctBy key l

mutual
/-- The Directory invariant at every level: no two sibling Directories share a
name and no two Files of one Directory share a path. -/
def Directory.wf : Directory → Bool
  | Directory.mk _ fs ds =>
    distinctBy File.Path fs && distinctBy Directory.Name ds && wfList ds
/-- The invariant for each directory of a list. -/
def wfList : List Directory → Bool
  | [] => true
  | d :: ds => d.wf && wfList ds
end

mutual
/-- Number of Files in the whole tree. -/
def Directory.countFiles : Directory → Nat
  | Directory.mk _ fs ds => fs.length + countFilesList ds
/-- Number of Files in a list of trees. -/
def countFilesList : List Directory → Nat
  | [] => 0
  | d :: ds => d.countFiles + countFilesList ds
end

mutual
/-- Tree `r` keeps tree `d` in place: same name, the Files of `d` are an initial
segment of the Files of `r`, and the child Directories of `d` are kept, in
order and at the same indices, each one kept in place in turn. -/
def keeps : Directory → Directory → Bool
  | Directory.mk n fs ds, Directory.mk m gs rs =>
    decide (n = m) && decide (gs.take fs.length = fs) && keepsList ds rs
/-- Pointwise `keeps` on an initial segment. -/
def keepsList : List Directory → List Directory → Bool
  | [], _ => true
  | _ :: _, [] => false
  | d :: ds, r :: rs => keeps d r && keepsList ds rs
end

mutual
/-- The subtrees of `r` that were appended below a directory inherited from
`d`. -/
def grafts : Directory → Directory → List Directory
  | Directory.mk _ _ ds, Directory.mk _ _ rs => graftsList ds rs
/-- The grafts of a list of children: what follows the inherited children,
after the grafts inside them. -/
def graftsList : List Directory → List Directory → List Directory
  | [], rs => rs
  | _ :: _, [] => []
  | d :: ds, r :: rs => grafts d r ++ graftsList ds rs
end

mutual
/-- A chain: at most one child directory at every level. -/
def Directory.isChain : Directory → Bool
  | Directory.mk _ _ ds => decide (ds.length ≤ 1) && isChainList ds
/-- Every directory of the list is a chain. -/
def isChainList : List Directory → Bool
  | [] => true
  | d :: ds => d.isChain && isChainList ds
end

mutual
/-- The paths of all Files of the tree, at every level. -/
def Directory.allPaths : Directory → List String
  | Directory.mk _ fs ds => fs.map File.Path ++ allPathsList ds
/-- The paths of all Files of a list of trees. -/
def allPathsList : List Directory → List String
  | [] => []
  | d :: ds => d.allPaths ++ allPathsList ds
end

/-- A manifest whose root lists `/base/a.txt` already. -/
def listedManifest : WixManifest :=
  { WixManifest.zero with Directory := Directory.mk "" [⟨"/base/a.txt", none⟩] [] }

/-- A callback that records the matches it is given. -/
def collect (l : List String) (m : String) : Option (List String) :=
  some (l ++ [m])

/-- The flags `--dir /base --includes a.txt --excludes a.txt`. -/
def excludedArgs : AddFilesArgs :=
  { path := "wix.json", dir := "/base", includes := ["a.txt"], excludes := ["a.txt"],
    test := false }

/-- The flags `--dir /base --includes a.txt`, with `--test` or without. -/
def listedArgs (test : Bool) : AddFilesArgs :=
  { path := "wix.json", dir := "/base", includes := ["a.txt"], excludes := [],
    test := test }

/-- The shape of the tree of the scenario: the root lists exactly one File, with
path `rootFile`, and has exactly one child Directory, called `sub`, which lists
exactly one File, with path `subFile`, and has no Directories. -/
def hasScenarioShape (rootFile subFile : String) (d : Directory) : Bool :=
  decide (d.Files.map File.Path = [rootFile]) &&
    match d.Directories with
    | [sub] =>
      decide (sub.Name = "sub") && decide (sub.Files.map File.Path = [subFile]) &&
        decide (sub.Directories = [])
    | _ => false

/-! ## Reference for `addProperties`, in the words of the specification -/

/-- The Property of a well-formed entry: the ID is the text before the first
`=`, the Value all the text after that first `=`. -/
def propertyOf (prop : String) : Property :=
  { ID := String.mk (prop.data.takeWhile (fun c => decide (c ≠ '='))),
    Value := some (String.mk ((prop.data.dropWhile (fun c => decide (c ≠ '='))).drop 1)) }

/-- The reference of the specification: the error when some entry contains no
`=`; otherwise the existing properties followed by one Property for each entry,
in input order, duplicate keys kept. -/
def addPropertiesRef (wixFile : WixManifest) (properties : List String) :
    Except GoError WixManifest :=
  if properties.all (fun prop => decide ('=' ∈ prop.data)) then
    Except.ok { wixFile with Properties := wixFile.Properties ++ properties.map propertyOf }
  else Except.error (GoError.errorf "property definition must be of the form Id=Value")

/-- What the caller of `addProperties` sees: the error, or else the manifest. -/
def addPropertiesResult (wixFile : WixManifest) (properties : List String) :
    Except GoError WixManifest :=
  match addProperties wixFile properties with
  | (_, some e) => Except.error e
  | (w, none) => Except.ok w

/-- A small tree used as a concrete input: a root listing `a.txt` with one child
directory `sub` listing `b.txt`. -/
def sampleTree : Directory :=
  Directory.mk "" [⟨"a.txt", none⟩] [Directory.mk "sub" [⟨"sub/b.txt", none⟩] []]

/-- Two runs of `glob` with different callbacks end the same way, with states
related by `R`; nothing is asked when the first run ends in a panic. -/
def Run.rel {σ τ : Type} (R : σ → τ → Prop) : Run σ → Run τ → Prop
  | Run.ok st, Run.ok t => R st t
  | Run.fail e st, Run.fail e1 t => e = e1 ∧ R st t
  | Run.panic, _ => True
  | _, _ => False

/-- The relative paths that `glob` hands to its callback, in order, up to the
point where it returns. -/
def globMatches (env : Env) (dir : String) (fail : Bool) (patterns : List String) :
    List String :=
  match glob env dir collect fail patterns [] with
  | Run.ok l => l
  | Run.fail _ l => l
  | Run.panic => []

/-! ## Observations on `glob` and `generateWixCommands` -/

/-- What a pattern group expands to when all of its comma-joined expressions are
taken together. -/
def groupExpansion (env : Env) (dir pattern : String) : List String :=
  ((strings.Split pattern ',').map (fun file =>
    match env.doublestarGlob (env.join dir file) with
    | Except.ok m => m
    | Except.error _ => [])).flatten

/-- Some comma-joined expression of some pattern group expands to no match. -/
def someExpressionEmpty (env : Env) (dir : String) (patterns : List String) : Prop :=
  ∃ pattern ∈ patterns, ∃ file ∈ strings.Split pattern ',',
    env.doublestarGlob (env.join dir file) = Except.ok []

/-- Every library call that `glob` makes succeeds. -/
def Env.globCallsSucceed (env : Env) : Prop :=
  (∀ p, ∃ l, env.doublestarGlob p = Except.ok l) ∧
    (∀ p, ∃ b, env.statIsDir p = Except.ok b) ∧
    (∀ p, ∃ q, env.abs p = Except.ok q) ∧
    (∀ a t, ∃ q, env.rel a t = Except.ok q)

/-- An environment in which every call succeeds: `/base/a.txt` is the only file
there is. -/
def plainEnv : Env :=
  { scenarioEnv WixManifest.zero with
    doublestarGlob := fun p => if p = "/base/a.txt" then Except.ok [p] else Except.ok []
    statIsDir := fun _ => Except.ok false
    rel := fun _ t => Except.ok t }

/-- The file system of the scenario seen from the working directory `/cwd` with
the relative base directory `base`: the matches of a relative pattern are
relative, `filepath.Abs` makes `base` absolute, and `filepath.Rel` cannot make a
relative target relative to an absolute base. -/
def relativeEnv : Env :=
  { scenarioEnv WixManifest.zero with
    doublestarGlob := fun p =>
      if p = "base/a.txt" then Except.ok ["base/a.txt"] else Except.ok []
    statIsDir := fun p =>
      if p = "base/a.txt" then Except.ok false
      else Except.error "no such file or directory"
    abs := fun p => if p = "base" then Except.ok "/cwd/base" else Except.ok p
    rel := fun a t =>
      if a = "/cwd/base" ∧ t = "base/a.txt" then
        Except.error "Rel: can't make base/a.txt relative to /cwd/base"
      else Except.ok t }

/-- An environment whose manifest needs identifiers, with one template. -/
def guidEnv : Env :=
  { scenarioEnv WixManifest.zero with
    needGUID := fun _ => true
    templatesFind := fun _ _ => Except.ok ["templates/product.wxs"] }

/-- Flags for `gen-wix-cmd`. -/
def guidArgs : WixCmdArgs :=
  { path := "wix.json", src := "templates", out := "/out", msi := "/out/app.msi",
    arch := "amd64", bin := "" }

/-- The effect is the call of `wix.GenerateCmd` or the writing of a file. -/
def Effect.isBuild : Effect → Bool
  | Effect.println _ => false
  | Effect.generateCmd _ _ _ _ _ => true
  | Effect.writeFile _ _ => true

/-! ## `quickMake` (main.go, lines 719-853) and `chocoMake` (lines 872-984) -/

/-- The library function `strings.Join(elems, sep)`. -/
def strings.Join : List String → String → String
  | [], _ => ""
  | [a], _ => a
  | a :: b :: rest, sep => a ++ sep ++ strings.Join (b :: rest) sep

/-- The method `err.Error()`: the text of an error.  The verb `%q` of the `glob`
error is rendered by `String.quote`. -/
def GoError.Error : GoError → String
  | GoError.lib t => t
  | GoError.errorf t => t
  | GoError.filesDoNotExist p => "files " ++ p.quote ++ " do not exist"
  | GoError.exitText t _ => t
  | GoError.exitErr c _ => c.Error

/-- The further calls that leave `main.go` from `quickMake` and `chocoMake`: the
packages `os`, `os/exec`, `rtf`, `templates`, `stringexec` and the method
`SetGuids` of the manifest.  `os.RemoveAll(out)` is called twice by `quickMake`,
before and after the build, and may answer differently. -/
structure BuildEnv extends Env where
  /-- `wixFile.SetGuids(force)`: whether it changed the manifest, and the
  manifest -/
  setGuids : WixManifest → Bool → Except String (Bool × WixManifest)
  /-- `os.RemoveAll(out)` before the build: the error, if any -/
  removeAll : String → Option String
  /-- `os.MkdirAll(out, 0744)`: the error, if any -/
  mkdirAll : String → Option String
  /-- `rtf.IsRtf(path)` -/
  isRtf : String → Except String Bool
  /-- `rtf.WriteAsRtf(src, dst, reencode)`: the error, if any -/
  writeAsRtf : String → String → Bool → Option String
  /-- `templates.GenerateTemplate(&wixFile, tpl, dst)`: the error, if any -/
  generateTemplate : WixManifest → String → String → Option String
  /-- `exec.Command("cmd.exe", "/C", "build.bat")` run in the directory given:
  the error, if any -/
  runBuildScript : String → Option String
  /-- `os.RemoveAll(out)` after the build: the error, if any -/
  removeAllAfterBuild : String → Option String
  /-- `stringexec.Command(cmd)`: the error, if any -/
  stringexecCommand : String → Option String
  /-- `windows.Output()` of the changelog command: its standard output -/
  commandOutput : String → Except String String
  /-- the rendering of a string by the verb `%q` -/
  quote : String → String

/-- The flags of `make`; `licenseIsSet` is `c.IsSet("license")`. -/
structure MakeArgs where
  path : String
  src : String
  out : String
  compression : String
  version : String
  display : String
  license : String
  licenseIsSet : Bool
  properties : List String
  msi : String
  arch : String
  keep : Bool
  bin : String

/-- The steps of `quickMake`, in the order of the source. -/
inductive MakeStep where
  | load
  | setGuids
  | removeOutputDir
  | createOutputDir
  | license
  | addProperties
  | normalize
  | rewriteFilePaths
  | findTemplates
  | renderTemplates
  | resolvePaths
  | writeScript
  | runScript
  | cleanupOutputDir
deriving DecidableEq, Repr

/-- The position of a step in `quickMake`. -/
def MakeStep.rank : MakeStep → Nat
  | MakeStep.load => 0
  | MakeStep.setGuids => 1
  | MakeStep.removeOutputDir => 2
  | MakeStep.createOutputDir => 3
  | MakeStep.license => 4
  | MakeStep.addProperties => 5
  | MakeStep.normalize => 6
  | MakeStep.rewriteFilePaths => 7
  | MakeStep.findTemplates => 8
  | MakeStep.renderTemplates => 9
  | MakeStep.resolvePaths => 10
  | MakeStep.writeScript => 11
  | MakeStep.runScript => 12
  | MakeStep.cleanupOutputDir => 13

/-- A run of `quickMake`: the steps it performed, each with the text of its error
when it failed, and the error returned. -/
abbrev MakeRun := List (MakeStep × Option String) × Option GoError

/-- The steps that were performed without an error. -/
def stepsDone (steps : List MakeStep) : List (MakeStep × Option String) :=
  steps.map (fun k => (k, none))

/-- The run that ends with `return cli.NewExitError(err.Error(), 1)` at step `k`,
after the steps `before`. -/
def failAt (before : List MakeStep) (k : MakeStep) (text : String) : MakeRun :=
  (stepsDone before ++ [(k, some text)], some (GoError.exitText text 1))

/-- Lines 757-773 of `quickMake`: the license flag and the conversion of the
license to RTF. -/
def licenseStep (env : BuildEnv) (a : MakeArgs) (wixFile : WixManifest) :
    Except String WixManifest :=
  let w := if a.licenseIsSet then { wixFile with License := a.license } else wixFile
  if w.License = "" then Except.ok w
  else
    match env.isRtf w.License with
    | Except.error e => Except.error e
    | Except.ok true => Except.ok w
    | Except.ok false =>
      let target := env.join a.out (env.base w.License ++ ".rtf")
      match env.writeAsRtf w.License target true with
      | some e => Except.error e
      | none => Except.ok { w with License := target }

/-- Lines 795-803 of `quickMake`: the loop that renders the templates; the
result is `builtTemplates`. -/
def renderTemplates (env : BuildEnv) (wixFile : WixManifest) (out : String) :
    List String → Except String (List String)
  | [] => Except.ok []
  | tpl :: tpls =>
    let dst := env.join out (env.base tpl)
    match env.generateTemplate wixFile tpl dst with
    | some e => Except.error e
    | none =>
      match renderTemplates env wixFile out tpls with
      | Except.error e => Except.error e
      | Except.ok built => Except.ok (dst :: built)

/-- Lines 805-822 of `quickMake`: the path of the msi relative to the output
directory, and the absolute path of `bin`. -/
def resolvePaths (env : BuildEnv) (a : MakeArgs) : Except String (String × String) :=
  match env.abs a.msi with
  | Except.error e => Except.error e
  | Except.ok msi1 =>
    match env.abs a.out with
    | Except.error e => Except.error e
    | Except.ok absOut =>
      match env.rel absOut msi1 with
      | Except.error e => Except.error e
      | Except.ok msi2 =>
        if a.bin = "" then Except.ok (msi2, a.bin)
        else
          match env.abs a.bin with
          | Except.error e => Except.error e
          | Except.ok bin1 => Except.ok (msi2, bin1)

/-- `quickMake(c)`: the steps performed and the returned error. -/
def quickMake (env : BuildEnv) (a : MakeArgs) : MakeRun :=
  if a.msi = "" then ([], some (GoError.exitText "--msi parameter must be set" 1))
  else
  match env.load a.path with
  | Except.error e => failAt [] MakeStep.load e
  | Except.ok w0 =>
  match env.setGuids w0 false with
  | Except.error e => failAt [MakeStep.load] MakeStep.setGuids e
  | Except.ok (_, w1) =>
  match env.removeAll a.out with
  | some e => failAt [MakeStep.load, MakeStep.setGuids] MakeStep.removeOutputDir e
  | none =>
  match env.mkdirAll a.out with
  | some e =>
    failAt [MakeStep.load, MakeStep.setGuids, MakeStep.removeOutputDir]
      MakeStep.createOutputDir e
  | none =>
  let w2 : WixManifest :=
    { w1 with
      Compression := a.compression
      Version := { w1.Version with User := a.version, Display := a.display } }
  match licenseStep env a w2 with
  | Except.error e =>
    failAt [MakeStep.load, MakeStep.setGuids, MakeStep.removeOutputDir,
      MakeStep.createOutputDir] MakeStep.license e
  | Except.ok w3 =>
  match addProperties w3 a.properties with
  | (_, some err) =>
    failAt [MakeStep.load, MakeStep.setGuids, MakeStep.removeOutputDir,
      MakeStep.createOutputDir, MakeStep.license] MakeStep.addProperties err.Error
  | (w4, none) =>
  match env.normalize w4 with
  | Except.error e =>
    failAt [MakeStep.load, MakeStep.setGuids, MakeStep.removeOutputDir,
      MakeStep.createOutputDir, MakeStep.license, MakeStep.addProperties]
      MakeStep.normalize e
  | Except.ok w5 =>
  match env.rewriteFilePaths w5 a.out with
  | Except.error e =>
    failAt [MakeStep.load, MakeStep.setGuids, MakeStep.removeOutputDir,
      MakeStep.createOutputDir, MakeStep.license, MakeStep.addProperties,
      MakeStep.normalize] MakeStep.rewriteFilePaths e
  | Except.ok w6 =>
  match (match env.templatesFind a.src "*.wxs" with
    | Except.error e => Except.error e
    | Except.ok tpls =>
      if tpls.length = 0 then Except.error "No templates *.wxs found in this directory"
      else Except.ok tpls) with
  | Except.error e =>
    failAt [MakeStep.load, MakeStep.setGuids, MakeStep.removeOutputDir,
      MakeStep.createOutputDir, MakeStep.license, MakeStep.addProperties,
      MakeStep.normalize, MakeStep.rewriteFilePaths] MakeStep.findTemplates e
  | Except.ok tpls =>
  match renderTemplates env w6 a.out tpls with
  | Except.error e =>
    failAt [MakeStep.load, MakeStep.setGuids, MakeStep.removeOutputDir,
      MakeStep.createOutputDir, MakeStep.license, MakeStep.addProperties,
      MakeStep.normalize, MakeStep.rewriteFilePaths, MakeStep.findTemplates]
      MakeStep.renderTemplates e
  | Except.ok builtTemplates =>
  match resolvePaths env a with
  | Except.error e =>
    failAt [MakeStep.load, MakeStep.setGuids, MakeStep.removeOutputDir,
      MakeStep.createOutputDir, MakeStep.license, MakeStep.addProperties,
      MakeStep.normalize, MakeStep.rewriteFilePaths, MakeStep.findTemplates,
      MakeStep.renderTemplates] MakeStep.resolvePaths e
  | Except.ok (msi, bin) =>
  let cmdStr := env.generateCmd w6 builtTemplates msi a.arch bin
  match env.writeFile (env.join a.out "build.bat") cmdStr with
  | some e =>
    failAt [MakeStep.load, MakeStep.setGuids, MakeStep.removeOutputDir,
      MakeStep.createOutputDir, MakeStep.license, MakeStep.addProperties,
      MakeStep.normalize, MakeStep.rewriteFilePaths, MakeStep.findTemplates,
      MakeStep.renderTemplates, MakeStep.resolvePaths] MakeStep.writeScript e
  | none =>
  match env.runBuildScript a.out with
  | some e =>
    failAt [MakeStep.load, MakeStep.setGuids, MakeStep.removeOutputDir,
      MakeStep.createOutputDir, MakeStep.license, MakeStep.addProperties,
      MakeStep.normalize, MakeStep.rewriteFilePaths, MakeStep.findTemplates,
      MakeStep.renderTemplates, MakeStep.resolvePaths, MakeStep.writeScript]
      MakeStep.runScript e
  | none =>
  if a.keep = false then
    match env.removeAllAfterBuild a.out with
    | some e =>
      failAt [MakeStep.load, MakeStep.setGuids, MakeStep.removeOutputDir,
        MakeStep.createOutputDir, MakeStep.license, MakeStep.addProperties,
        MakeStep.normalize, MakeStep.rewriteFilePaths, MakeStep.findTemplates,
        MakeStep.renderTemplates, MakeStep.resolvePaths, MakeStep.writeScript,
        MakeStep.runScript] MakeStep.cleanupOutputDir e
    | none =>
      (stepsDone [MakeStep.load, MakeStep.setGuids, MakeStep.removeOutputDir,
        MakeStep.createOutputDir, MakeStep.license, MakeStep.addProperties,
        MakeStep.normalize, MakeStep.rewriteFilePaths, MakeStep.findTemplates,
        MakeStep.renderTemplates, MakeStep.resolvePaths, MakeStep.writeScript,
        MakeStep.runScript, MakeStep.cleanupOutputDir], none)
  else
    (stepsDone [MakeStep.load, MakeStep.setGuids, MakeStep.removeOutputDir,
      MakeStep.createOutputDir, MakeStep.license, MakeStep.addProperties,
      MakeStep.normalize, MakeStep.rewriteFilePaths, MakeStep.findTemplates,
      MakeStep.renderTemplates, MakeStep.resolvePaths, MakeStep.writeScript,
      MakeStep.runScript], none)

/-- Lines 930-935 of `chocoMake`: from the captured standard output of the
changelog command to the text stored in `wixFile.Choco.ChangeLog`. -/
def changelogText (out : String) : String :=
  let sout := out
  let souts := strings.Split sout '\n'
  let souts := if souts.length > 2 then souts.drop 2 else souts
  strings.Join souts "\n"

/-- Lines 920-938 of `chocoMake`: the changelog command and the manifest
after it. -/
def chocoMakeChangelog (env : BuildEnv) (changelogCmd : String) (wixFile : WixManifest) :
    Except GoError WixManifest :=
  if changelogCmd = "" then Except.ok wixFile
  else
    match env.stringexecCommand changelogCmd with
    | some e => Except.error (GoError.exitText e 1)
    | none =>
      match env.commandOutput changelogCmd with
      | Except.error e =>
        Except.error (GoError.exitText
          ("Failed to execute command to generate the changelog:" ++ env.quote changelogCmd
            ++ "\n" ++ e) 1)
      | Except.ok out =>
        Except.ok { wixFile with Choco := { wixFile.Choco with ChangeLog := changelogText out } }

/-- The text the changelog would have if the first two lines were dropped from
every output. -/
def changelogDropTwo (out : String) : String :=
  strings.Join ((strings.Split out '\n').drop 2) "\n"

/-- An environment for `make` and `choco` over the file system of the scenario:
one template, every call succeeds except `Normalize`, which rejects the
manifest; the changelog command prints two lines. -/
def makeEnv : BuildEnv :=
  { scenarioEnv WixManifest.zero with
    normalize := fun _ => Except.error "version is required"
    templatesFind := fun _ _ => Except.ok ["templates/product.wxs"]
    setGuids := fun w _ => Except.ok (false, w)
    removeAll := fun _ => none
    mkdirAll := fun _ => none
    isRtf := fun _ => Except.ok true
    writeAsRtf := fun _ _ _ => none
    generateTemplate := fun _ _ _ => none
    runBuildScript := fun _ => none
    removeAllAfterBuild := fun _ => none
    stringexecCommand := fun _ => none
    commandOutput := fun _ => Except.ok "a\nb"
    quote := fun s => s.quote }

/-- Flags for `make`. -/
def makeArgs : MakeArgs :=
  { path := "wix.json", src := "templates", out := "/out", compression := "",
    version := "", display := "", license := "", licenseIsSet := false,
    properties := ["Key=Value"], msi := "/out/app.msi", arch := "amd64", keep := false,
    bin := "" }

/-- A run is terminal on the first failure: a step that failed is the only one
that failed, its error is the error returned, every other step performed comes
before it, and the final removal of the output directory is not among them. -/
def TerminalOnFailure (r : MakeRun) : Prop :=
  ∀ k t, (k, some t) ∈ r.1 →
    r.2 = some (GoError.exitText t 1) ∧
      (∀ x ∈ r.1, x = (k, some t) ∨ (x.2 = none ∧ x.1.rank < k.rank)) ∧
      (k ≠ MakeStep.cleanupOutputDir → ∀ x ∈ r.1, x.1 ≠ MakeStep.cleanupOutputDir)

/-! ## Basic facts about `addFile` -/

theorem addFile_one (d : Directory) (f : File) (s : String) :
    addFile d f [s] =
      if d.hasFile f.Path then some d
      else some (Directory.mk d.Name (d.Files ++ [f]) d.Directories) := rfl

theorem addFile_cons (d : Directory) (f : File) (s t : String) (rest : List String) :
    addFile d f (s :: t :: rest) =
      (addFileDirs s (fun c => addFile c f (t :: rest)) d.Directories).map
        (fun ds => Directory.mk d.Name d.Files ds) := rfl

@[simp] theorem Directory.Name_mk (n : String) (fs : List File) (ds : List Directory) :
    (Directory.mk n fs ds).Name = n := rfl

@[simp] theorem Directory.Files_mk (n : String) (fs : List File) (ds : List Directory) :
    (Directory.mk n fs ds).Files = fs := rfl

@[simp] theorem Directory.Directories_mk (n : String) (fs : List File)
    (ds : List Directory) : (Directory.mk n fs ds).Directories = ds := rfl

theorem Directory.eta (d : Directory) :
    Directory.mk d.Name d.Files d.Directories = d := by
  cases d; rfl

theorem present_one (d : Directory) (x s : String) :
    present d x [s] = d.hasFile x := rfl

theorem present_cons (d : Directory) (x s t : String) (rest : List String) :
    present d x (s :: t :: rest) =
      match d.child s with
      | none => false
      | some c => present c x (t :: rest) := by
  unfold present
  simp only [List.dropLast, descend]
  cases d.child s <;> rfl

/-- The loop of `addFile` returns whenever the recursive call does, and the
first child called `name` of its result is a result of the recursive call. -/
theorem addFileDirs_child (P : Directory → Prop) (s : String)
    (k : Directory → Option Directory)
    (hk : ∀ d, ∃ r, k d = some r ∧ r.Name = d.Name ∧ P r) (ds : List Directory) :
    ∃ rs, addFileDirs s k ds = some rs ∧
      ∃ c, rs.find? (fun c => decide (c.Name = s)) = some c ∧ P c := by
  induction ds with
  | nil =>
    obtain ⟨r, hr, hn, hP⟩ := hk (Directory.mk s [] [])
    refine ⟨[r], by simp [addFileDirs, hr], r, ?_, hP⟩
    have : r.Name = s := hn
    simp [List.find?, this]
  | cons d ds ih =>
    by_cases hd : d.Name = s
    · obtain ⟨r, hr, hn, hP⟩ := hk d
      refine ⟨r :: ds, by simp [addFileDirs, hd, hr], r, ?_, hP⟩
      simp [List.find?, hn, hd]
    · obtain ⟨rs, hrs, c, hc, hP⟩ := ih
      refine ⟨d :: rs, by simp [addFileDirs, hd, hrs], c, ?_, hP⟩
      simp [List.find?, hd, hc]

/-- On a non-empty path `addFile` returns a tree with the name of `dir` that
lists the file where the path leads. -/
theorem addFile_present (f : File) (p : List String) (hp : p ≠ []) (d : Directory) :
    ∃ r, addFile d f p = some r ∧ r.Name = d.Name ∧ present r f.Path p = true := by
  induction p generalizing d with
  | nil => exact absurd rfl hp
  | cons s tl ih =>
    cases tl with
    | nil =>
      rw [addFile_one]
      by_cases h : d.hasFile f.Path = true
      · exact ⟨d, by simp [h], rfl, by rw [present_one]; exact h⟩
      · refine ⟨Directory.mk d.Name (d.Files ++ [f]) d.Directories, by simp [h], rfl, ?_⟩
        rw [present_one]
        simp [Directory.hasFile]
    | cons t rest =>
      obtain ⟨rs, hrs, c, hc, hP⟩ :=
        addFileDirs_child (fun r => present r f.Path (t :: rest) = true) s
          (fun c => addFile c f (t :: rest)) (fun c => ih (by simp) c) d.Directories
      refine ⟨Directory.mk d.Name d.Files rs, by rw [addFile_cons, hrs]; rfl, rfl, ?_⟩
      rw [present_cons]
      simp only [Directory.child, Directory.Directories, hc]
      exact hP

/-! ## `keeps`: what a merge leaves in place -/

mutual
theorem keeps_refl : ∀ d : Directory, keeps d d = true
  | Directory.mk n fs ds => by simp [keeps, keepsList_refl ds]
theorem keepsList_refl : ∀ ds : List Directory, keepsList ds ds = true
  | [] => by simp [keepsList]
  | d :: ds => by simp [keepsList, keeps_refl d, keepsList_refl ds]
end

theorem keeps_iff (d r : Directory) :
    keeps d r = true ↔
      d.Name = r.Name ∧ r.Files.take d.Files.length = d.Files ∧
        keepsList d.Directories r.Directories = true := by
  cases d; cases r; simp [keeps, and_assoc]

theorem keepsList_cons (d r : Directory) (ds rs : List Directory) :
    keepsList (d :: ds) (r :: rs) = true ↔ keeps d r = true ∧ keepsList ds rs = true := by
  simp [keepsList]

theorem take_length_trans {α : Type} (a b c : List α) (h1 : b.take a.length = a)
    (h2 : c.take b.length = b) : c.take a.length = a := by
  have p1 : a <+: b := List.prefix_iff_eq_take.2 h1.symm
  have p2 : b <+: c := List.prefix_iff_eq_take.2 h2.symm
  exact (List.prefix_iff_eq_take.1 (p1.trans p2)).symm

mutual
theorem keeps_trans : ∀ a b c : Directory,
    keeps a b = true → keeps b c = true → keeps a c = true
  | Directory.mk n fs ds, Directory.mk m gs rs, Directory.mk l hs ts, h1, h2 => by
    rw [keeps_iff] at h1 h2 ⊢
    simp only [Directory.Name_mk, Directory.Files_mk, Directory.Directories_mk] at h1 h2 ⊢
    exact ⟨h1.1.trans h2.1, take_length_trans fs gs hs h1.2.1 h2.2.1,
      keepsList_trans ds rs ts h1.2.2 h2.2.2⟩
theorem keepsList_trans : ∀ a b c : List Directory,
    keepsList a b = true → keepsList b c = true → keepsList a c = true
  | [], _, _, _, _ => by simp [keepsList]
  | _ :: _, [], _, h1, _ => by simp [keepsList] at h1
  | _ :: _, _ :: _, [], _, h2 => by simp [keepsList] at h2
  | a :: l, b :: r, c :: t, h1, h2 => by
    rw [keepsList_cons] at h1 h2 ⊢
    exact ⟨keeps_trans a b c h1.1 h2.1, keepsList_trans l r t h1.2 h2.2⟩
end

/-- The loop of `addFile` keeps every sibling in place when the recursive call
keeps its argument in place. -/
theorem addFileDirs_keeps (s : String) (k : Directory → Option Directory)
    (hk : ∀ c r, k c = some r → keeps c r = true) (ds rs : List Directory)
    (h : addFileDirs s k ds = some rs) : keepsList ds rs = true := by
  induction ds generalizing rs with
  | nil => simp [keepsList]
  | cons d ds ih =>
    by_cases hd : d.Name = s
    · simp only [addFileDirs, hd, if_true, Option.map_eq_some'] at h
      obtain ⟨r, hr, rfl⟩ := h
      rw [keepsList_cons]
      exact ⟨hk d r hr, keepsList_refl ds⟩
    · simp only [addFileDirs, hd, if_false, Option.map_eq_some'] at h
      obtain ⟨rs1, hrs, rfl⟩ := h
      rw [keepsList_cons]
      exact ⟨keeps_refl d, ih rs1 hrs⟩

/-- The result of `addFile` keeps the whole of `dir` in place. -/
theorem addFile_keeps (f : File) (p : List String) (d r : Directory)
    (h : addFile d f p = some r) : keeps d r = true := by
  induction p generalizing d r with
  | nil => simp [addFile] at h
  | cons s tl ih =>
    cases tl with
    | nil =>
      rw [addFile_one] at h
      split at h
      · cases h; exact keeps_refl d
      · cases h
        rw [keeps_iff]
        simp [keepsList_refl]
    | cons t rest =>
      rw [addFile_cons, Option.map_eq_some'] at h
      obtain ⟨rs, hrs, rfl⟩ := h
      rw [keeps_iff]
      refine ⟨rfl, by simp, ?_⟩
      exact addFileDirs_keeps s _ (fun c r hc => ih c r hc) _ _ hrs

theorem keepsList_find (s : String) (ds rs : List Directory) (c : Directory)
    (h : keepsList ds rs = true)
    (hc : ds.find? (fun c => decide (c.Name = s)) = some c) :
    ∃ c1, rs.find? (fun c => decide (c.Name = s)) = some c1 ∧ keeps c c1 = true := by
  induction ds generalizing rs with
  | nil => simp at hc
  | cons d ds ih =>
    cases rs with
    | nil => simp [keepsList] at h
    | cons r rs =>
      rw [keepsList_cons] at h
      have hn : d.Name = r.Name := ((keeps_iff d r).1 h.1).1
      by_cases hd : d.Name = s
      · have hr : r.Name = s := hn ▸ hd
        simp only [List.find?, hd, decide_True, Option.some.injEq] at hc
        subst hc
        exact ⟨r, by simp [List.find?, hr], h.1⟩
      · have hr : ¬ r.Name = s := hn ▸ hd
        simp only [List.find?, hd, decide_False] at hc
        obtain ⟨c1, h1, h2⟩ := ih rs h.2 hc
        exact ⟨c1, by simp [List.find?, hr, h1], h2⟩

theorem keeps_descend (l : List String) (d r t : Directory) (h : keeps d r = true)
    (ht : descend d l = some t) : ∃ t1, descend r l = some t1 ∧ keeps t t1 = true := by
  induction l generalizing d r with
  | nil =>
    simp only [descend, Option.some.injEq] at ht
    subst ht
    exact ⟨r, rfl, h⟩
  | cons s rest ih =>
    simp only [descend] at ht ⊢
    cases hc : d.child s with
    | none => simp [hc] at ht
    | some c =>
      simp only [hc] at ht
      obtain ⟨c1, h1, h2⟩ :=
        keepsList_find s d.Directories r.Directories c ((keeps_iff d r).1 h).2.2 hc
      have : r.child s = some c1 := h1
      simp only [this]
      exact ih c c1 h2 ht

theorem keeps_hasFile (d r : Directory) (x : String) (h : keeps d r = true)
    (hx : d.hasFile x = true) : r.hasFile x = true := by
  have hf := ((keeps_iff d r).1 h).2.1
  simp only [Directory.hasFile, List.any_eq_true, decide_eq_true_eq] at hx ⊢
  obtain ⟨g, hg, hp⟩ := hx
  refine ⟨g, ?_, hp⟩
  rw [← hf] at hg
  exact List.mem_of_mem_take hg

/-- A file listed at a position stays listed there in every tree that keeps
the first one in place. -/
theorem keeps_present (d r : Directory) (x : String) (p : List String)
    (h : keeps d r = true) (hx : present d x p = true) : present r x p = true := by
  unfold present at hx ⊢
  cases ht : descend d p.dropLast with
  | none => simp [ht] at hx
  | some t =>
    simp only [ht] at hx
    obtain ⟨t1, h1, h2⟩ := keeps_descend _ d r t h ht
    simp only [h1]
    exact keeps_hasFile t t1 x h2 hx

/-! ## Merging a file that is already listed -/

theorem addFileDirs_fixed (s : String) (k : Directory → Option Directory)
    (ds : List Directory) (c : Directory)
    (hc : ds.find? (fun c => decide (c.Name = s)) = some c) (hk : k c = some c) :
    addFileDirs s k ds = some ds := by
  induction ds with
  | nil => simp at hc
  | cons d ds ih =>
    by_cases hd : d.Name = s
    · simp only [List.find?, hd, decide_True, Option.some.injEq] at hc
      subst hc
      simp [addFileDirs, hd, hk]
    · simp only [List.find?, hd, decide_False] at hc
      simp [addFileDirs, hd, ih hc]

/-- When the file is already listed where the path leads, `addFile` returns
`dir` unchanged. -/
theorem addFile_of_present (f : File) (p : List String) (d : Directory)
    (h : present d f.Path p = true) (hp : p ≠ []) : addFile d f p = some d := by
  induction p generalizing d with
  | nil => exact absurd rfl hp
  | cons s tl ih =>
    cases tl with
    | nil =>
      rw [present_one] at h
      simp [addFile_one, h]
    | cons t rest =>
      rw [present_cons] at h
      cases hc : d.child s with
      | none => simp [hc] at h
      | some c =>
        simp only [hc] at h
        have hk := ih c h (by simp)
        rw [addFile_cons,
          addFileDirs_fixed s (fun c => addFile c f (t :: rest)) d.Directories c hc hk]
        simp [Directory.eta]

theorem mergeMatches_cons (d : Directory) (m : File × List String)
    (ms : List (File × List String)) :
    mergeMatches d (m :: ms) = (addFile d m.1 m.2).bind (fun r => mergeMatches r ms) := rfl

/-- Merging matches with non-empty paths returns a tree that keeps `d` in place
and lists every match. -/
theorem mergeMatches_present (ms : List (File × List String))
    (hms : ∀ m ∈ ms, m.2 ≠ []) (d : Directory) :
    ∃ r, mergeMatches d ms = some r ∧ keeps d r = true ∧
      ∀ m ∈ ms, present r m.1.Path m.2 = true := by
  induction ms generalizing d with
  | nil => exact ⟨d, rfl, keeps_refl d, by simp⟩
  | cons m ms ih =>
    obtain ⟨r1, h1, _, hp1⟩ := addFile_present m.1 m.2 (hms m (by simp)) d
    obtain ⟨r, h2, hk, hp2⟩ := ih (fun x hx => hms x (by simp [hx])) r1
    have hk1 := addFile_keeps m.1 m.2 d r1 h1
    refine ⟨r, by simp [mergeMatches_cons, h1, h2], ?_, ?_⟩
    · exact keeps_trans d r1 r hk1 hk
    · intro x hx
      rcases List.mem_cons.1 hx with rfl | hx
      · exact keeps_present r1 r _ _ hk hp1
      · exact hp2 x hx

/-- Merging matches that are all listed already returns the tree unchanged. -/
theorem mergeMatches_of_present (ms : List (File × List String))
    (hms : ∀ m ∈ ms, m.2 ≠ []) (r : Directory)
    (h : ∀ m ∈ ms, present r m.1.Path m.2 = true) : mergeMatches r ms = some r := by
  induction ms with
  | nil => rfl
  | cons m ms ih =>
    rw [mergeMatches_cons, addFile_of_present m.1 m.2 r (h m (by simp)) (hms m (by simp))]
    exact ih (fun x hx => hms x (by simp [hx])) (fun x hx => h x (by simp [hx]))

/-! ## The Directory invariant -/

theorem distinctBy_iff_nodup {α : Type} (key : α → String) (l : List α) :
    distinctBy key l = true ↔ (l.map key).Nodup := by
  induction l with
  | nil => simp [distinctBy]
  | cons a l ih =>
    simp only [distinctBy, Bool.and_eq_true, Bool.not_eq_true', List.map_cons,
      List.nodup_cons, ih]
    constructor
    · rintro ⟨h1, h2⟩
      refine ⟨?_, h2⟩
      intro hm
      obtain ⟨b, hb, hk⟩ := List.mem_map.1 hm
      have : l.any (fun b => decide (key b = key a)) = true :=
        List.any_eq_true.2 ⟨b, hb, by simp [hk]⟩
      rw [h1] at this
      cases this
    · rintro ⟨h1, h2⟩
      refine ⟨?_, h2⟩
      cases h : l.any (fun b => decide (key b = key a)) with
      | false => rfl
      | true =>
        obtain ⟨b, hb, hk⟩ := List.any_eq_true.1 h
        exact absurd (List.mem_map.2 ⟨b, hb, by simpa using hk⟩) h1

theorem wf_iff (d : Directory) :
    d.wf = true ↔
      (d.Files.map File.Path).Nodup ∧ (d.Directories.map Directory.Name).Nodup ∧
        wfList d.Directories = true := by
  cases d
  simp [Directory.wf, distinctBy_iff_nodup, and_assoc]

theorem wfList_cons (d : Directory) (ds : List Directory) :
    wfList (d :: ds) = true ↔ d.wf = true ∧ wfList ds = true := by
  simp [wfList]

/-- The sibling names after the loop of `addFile`: unchanged, or `name` appended
when no sibling had it. -/
theorem addFileDirs_names (s : String) (k : Directory → Option Directory)
    (hk : ∀ c r, k c = some r → r.Name = c.Name) (ds rs : List Directory)
    (h : addFileDirs s k ds = some rs) :
    rs.map Directory.Name = ds.map Directory.Name ∨
      (rs.map Directory.Name = ds.map Directory.Name ++ [s] ∧
        s ∉ ds.map Directory.Name) := by
  induction ds generalizing rs with
  | nil =>
    simp only [addFileDirs, Option.map_eq_some'] at h
    obtain ⟨r, hr, rfl⟩ := h
    right
    have := hk _ r hr
    simp [this]
  | cons d ds ih =>
    by_cases hd : d.Name = s
    · simp only [addFileDirs, hd, if_true, Option.map_eq_some'] at h
      obtain ⟨r, hr, rfl⟩ := h
      left
      simp [hk d r hr]
    · simp only [addFileDirs, hd, if_false, Option.map_eq_some'] at h
      obtain ⟨rs1, hrs, rfl⟩ := h
      rcases ih rs1 hrs with h1 | ⟨h1, h2⟩
      · left; simp [h1]
      · right
        refine ⟨by simp [h1], ?_⟩
        simp only [List.map_cons, List.mem_cons, not_or]
        exact ⟨fun e => hd e.symm, h2⟩

theorem addFileDirs_wfList (s : String) (k : Directory → Option Directory)
    (hk : ∀ c r, c.wf = true → k c = some r → r.wf = true) (ds rs : List Directory)
    (hw : wfList ds = true) (h : addFileDirs s k ds = some rs) : wfList rs = true := by
  induction ds generalizing rs with
  | nil =>
    simp only [addFileDirs, Option.map_eq_some'] at h
    obtain ⟨r, hr, rfl⟩ := h
    rw [wfList_cons]
    exact ⟨hk _ r (by simp [Directory.wf, distinctBy, wfList]) hr, rfl⟩
  | cons d ds ih =>
    rw [wfList_cons] at hw
    by_cases hd : d.Name = s
    · simp only [addFileDirs, hd, if_true, Option.map_eq_some'] at h
      obtain ⟨r, hr, rfl⟩ := h
      rw [wfList_cons]
      exact ⟨hk d r hw.1 hr, hw.2⟩
    · simp only [addFileDirs, hd, if_false, Option.map_eq_some'] at h
      obtain ⟨rs1, hrs, rfl⟩ := h
      rw [wfList_cons]
      exact ⟨hw.1, ih rs1 hw.2 hrs⟩

theorem addFile_name (f : File) (p : List String) (d r : Directory)
    (h : addFile d f p = some r) : r.Name = d.Name := by
  have hp : p ≠ [] := by
    rintro rfl
    simp [addFile] at h
  obtain ⟨r1, h1, hn, _⟩ := addFile_present f p hp d
  rw [h1] at h
  cases h
  exact hn

theorem addFile_wf (f : File) (p : List String) (d r : Directory)
    (hw : d.wf = true) (h : addFile d f p = some r) : r.wf = true := by
  induction p generalizing d r with
  | nil => simp [addFile] at h
  | cons s tl ih =>
    cases tl with
    | nil =>
      rw [addFile_one] at h
      split at h
      · cases h; exact hw
      · rename_i hf
        cases h
        rw [wf_iff] at hw ⊢
        refine ⟨?_, hw.2⟩
        simp only [Directory.Files_mk, List.map_append, List.map_cons, List.map_nil]
        refine List.Nodup.append hw.1 (List.nodup_singleton _) ?_
        intro x hx hx1
        rw [List.mem_singleton] at hx1
        subst hx1
        obtain ⟨g, hg, hp⟩ := List.mem_map.1 hx
        exact hf (by
          simp only [Directory.hasFile, List.any_eq_true, decide_eq_true_eq]
          exact ⟨g, hg, hp⟩)
    | cons t rest =>
      rw [addFile_cons, Option.map_eq_some'] at h
      obtain ⟨rs, hrs, rfl⟩ := h
      rw [wf_iff] at hw ⊢
      refine ⟨hw.1, ?_, ?_⟩
      · rcases addFileDirs_names s _ (fun c r hc => addFile_name f _ c r hc) _ _ hrs
          with h1 | ⟨h1, h2⟩
        · simp only [Directory.Directories_mk, h1]; exact hw.2.1
        · simp only [Directory.Directories_mk, h1]
          exact List.Nodup.append hw.2.1 (List.nodup_singleton _)
            (by simpa using h2)
      · exact addFileDirs_wfList s _ (fun c r hc hr => ih c r hc hr) _ _ hw.2.2 hrs

/-! ## What a merge adds -/

theorem countFiles_eq (d : Directory) :
    d.countFiles = d.Files.length + countFilesList d.Directories := by
  cases d; simp [Directory.countFiles]

theorem addFileDirs_countFiles (s : String) (k : Directory → Option Directory)
    (hk : ∀ c r, k c = some r → r.countFiles ≤ c.countFiles + 1)
    (ds rs : List Directory) (h : addFileDirs s k ds = some rs) :
    countFilesList rs ≤ countFilesList ds + 1 := by
  induction ds generalizing rs with
  | nil =>
    simp only [addFileDirs, Option.map_eq_some'] at h
    obtain ⟨r, hr, rfl⟩ := h
    have := hk _ r hr
    simp only [countFilesList, Directory.countFiles, List.length_nil] at this ⊢
    omega
  | cons d ds ih =>
    by_cases hd : d.Name = s
    · simp only [addFileDirs, hd, if_true, Option.map_eq_some'] at h
      obtain ⟨r, hr, rfl⟩ := h
      have := hk d r hr
      simp only [countFilesList]
      omega
    · simp only [addFileDirs, hd, if_false, Option.map_eq_some'] at h
      obtain ⟨rs1, hrs, rfl⟩ := h
      have := ih rs1 hrs
      simp only [countFilesList]
      omega

/-- A merge adds at most one File to the whole tree. -/
theorem addFile_countFiles (f : File) (p : List String) (d r : Directory)
    (h : addFile d f p = some r) : r.countFiles ≤ d.countFiles + 1 := by
  induction p generalizing d r with
  | nil => simp [addFile] at h
  | cons s tl ih =>
    cases tl with
    | nil =>
      rw [addFile_one] at h
      split at h
      · cases h; omega
      · cases h
        rw [countFiles_eq, countFiles_eq d]
        simp only [Directory.Files_mk, Directory.Directories_mk, List.length_append,
          List.length_singleton]
        omega
    | cons t rest =>
      rw [addFile_cons, Option.map_eq_some'] at h
      obtain ⟨rs, hrs, rfl⟩ := h
      have := addFileDirs_countFiles s _ (fun c r hc => ih c r hc) _ _ hrs
      rw [countFiles_eq, countFiles_eq d]
      simp only [Directory.Files_mk, Directory.Directories_mk]
      omega

theorem grafts_eq (d r : Directory) :
    grafts d r = graftsList d.Directories r.Directories := by
  cases d; cases r; simp [grafts]

mutual
theorem grafts_self : ∀ d : Directory, grafts d d = []
  | Directory.mk n fs ds => by simp [grafts, graftsList_self ds]
theorem graftsList_self : ∀ ds : List Directory, graftsList ds ds = []
  | [] => by simp [graftsList]
  | d :: ds => by simp [graftsList, grafts_self d, graftsList_self ds]
end

theorem isChain_iff (d : Directory) :
    d.isChain = true ↔ d.Directories.length ≤ 1 ∧ isChainList d.Directories = true := by
  cases d; simp [Directory.isChain]

/-- Merging into a directory without children gives a chain. -/
theorem addFile_isChain (f : File) (p : List String) (d r : Directory)
    (hd : d.Directories = []) (h : addFile d f p = some r) : r.isChain = true := by
  induction p generalizing d r with
  | nil => simp [addFile] at h
  | cons s tl ih =>
    cases tl with
    | nil =>
      rw [addFile_one] at h
      split at h
      · cases h; rw [isChain_iff, hd]; simp [isChainList]
      · cases h; rw [isChain_iff]; simp [hd, isChainList]
    | cons t rest =>
      rw [addFile_cons, hd] at h
      simp only [addFileDirs, Option.map_map, Option.map_eq_some'] at h
      obtain ⟨c, hc, rfl⟩ := h
      have := ih (Directory.mk s [] []) c rfl hc
      rw [isChain_iff]
      simp [isChainList, this]

theorem addFileDirs_grafts (s : String) (k : Directory → Option Directory)
    (hk : ∀ c r, k c = some r →
      (grafts c r).length ≤ 1 ∧ ∀ x ∈ grafts c r, x.isChain = true)
    (hfresh : ∀ r, k (Directory.mk s [] []) = some r → r.isChain = true)
    (ds rs : List Directory) (h : addFileDirs s k ds = some rs) :
    (graftsList ds rs).length ≤ 1 ∧ ∀ x ∈ graftsList ds rs, x.isChain = true := by
  induction ds generalizing rs with
  | nil =>
    simp only [addFileDirs, Option.map_eq_some'] at h
    obtain ⟨r, hr, rfl⟩ := h
    simp [graftsList, hfresh r hr]
  | cons d ds ih =>
    by_cases hd : d.Name = s
    · simp only [addFileDirs, hd, if_true, Option.map_eq_some'] at h
      obtain ⟨r, hr, rfl⟩ := h
      simpa [graftsList, graftsList_self] using hk d r hr
    · simp only [addFileDirs, hd, if_false, Option.map_eq_some'] at h
      obtain ⟨rs1, hrs, rfl⟩ := h
      simpa [graftsList, grafts_self] using ih rs1 hrs

/-- A merge grafts at most one subtree below the directories it inherits, and
that subtree is a chain. -/
theorem addFile_grafts (f : File) (p : List String) (d r : Directory)
    (h : addFile d f p = some r) :
    (grafts d r).length ≤ 1 ∧ ∀ x ∈ grafts d r, x.isChain = true := by
  induction p generalizing d r with
  | nil => simp [addFile] at h
  | cons s tl ih =>
    cases tl with
    | nil =>
      rw [addFile_one] at h
      split at h
      · cases h; simp [grafts_self]
      · cases h; simp [grafts_eq, graftsList_self]
    | cons t rest =>
      rw [addFile_cons, Option.map_eq_some'] at h
      obtain ⟨rs, hrs, rfl⟩ := h
      rw [grafts_eq]
      exact addFileDirs_grafts s _ (fun c r hc => ih c r hc)
        (fun r hr => addFile_isChain f _ (Directory.mk s [] []) r rfl hr) _ _ hrs

/-! ## Which Files a merge can add -/

theorem allPaths_eq (d : Directory) :
    d.allPaths = d.Files.map File.Path ++ allPathsList d.Directories := by
  cases d; simp [Directory.allPaths]

theorem addFileDirs_allPaths (s x y : String) (k : Directory → Option Directory)
    (hk : ∀ c r, k c = some r → x ∈ r.allPaths → x ∈ c.allPaths ∨ x = y)
    (ds rs : List Directory) (h : addFileDirs s k ds = some rs)
    (hx : x ∈ allPathsList rs) : x ∈ allPathsList ds ∨ x = y := by
  induction ds generalizing rs with
  | nil =>
    simp only [addFileDirs, Option.map_eq_some'] at h
    obtain ⟨r, hr, rfl⟩ := h
    simp only [allPathsList, List.append_nil] at hx
    rcases hk _ r hr hx with h1 | h1
    · simp [Directory.allPaths, allPathsList] at h1
    · exact Or.inr h1
  | cons d ds ih =>
    by_cases hd : d.Name = s
    · simp only [addFileDirs, hd, if_true, Option.map_eq_some'] at h
      obtain ⟨r, hr, rfl⟩ := h
      simp only [allPathsList, List.mem_append] at hx ⊢
      rcases hx with h1 | h1
      · rcases hk d r hr h1 with h2 | h2
        · exact Or.inl (Or.inl h2)
        · exact Or.inr h2
      · exact Or.inl (Or.inr h1)
    · simp only [addFileDirs, hd, if_false, Option.map_eq_some'] at h
      obtain ⟨rs1, hrs, rfl⟩ := h
      simp only [allPathsList, List.mem_append] at hx ⊢
      rcases hx with h1 | h1
      · exact Or.inl (Or.inl h1)
      · rcases ih rs1 hrs h1 with h2 | h2
        · exact Or.inl (Or.inr h2)
        · exact Or.inr h2

/-- Every File path of the result of `addFile` is a File path of `dir` or the
path of `file`. -/
theorem addFile_allPaths (f : File) (p : List String) (d r : Directory) (x : String)
    (h : addFile d f p = some r) (hx : x ∈ r.allPaths) :
    x ∈ d.allPaths ∨ x = f.Path := by
  induction p generalizing d r with
  | nil => simp [addFile] at h
  | cons s tl ih =>
    cases tl with
    | nil =>
      rw [addFile_one] at h
      split at h
      · cases h; exact Or.inl hx
      · cases h
        rw [allPaths_eq] at hx
        rw [allPaths_eq d]
        simp only [Directory.Files_mk, Directory.Directories_mk, List.map_append,
          List.map_cons, List.map_nil, List.mem_append, List.mem_singleton] at hx ⊢
        tauto
    | cons t rest =>
      rw [addFile_cons, Option.map_eq_some'] at h
      obtain ⟨rs, hrs, rfl⟩ := h
      rw [allPaths_eq] at hx
      rw [allPaths_eq d]
      simp only [Directory.Files_mk, Directory.Directories_mk, List.mem_append] at hx ⊢
      rcases hx with h1 | h1
      · exact Or.inl (Or.inl h1)
      · rcases addFileDirs_allPaths s x f.Path _ (fun c r hc hxr => ih c r hc hxr) _ _ hrs h1
          with h2 | h2
        · exact Or.inl (Or.inr h2)
        · exact Or.inr h2

/-! ## `strings.SplitN` with a limit of two -/

theorem strings.cut_eq (sep : Char) (s : List Char) :
    strings.cut sep s =
      if sep ∈ s then
        some (s.takeWhile (fun c => decide (c ≠ sep)),
          (s.dropWhile (fun c => decide (c ≠ sep))).drop 1)
      else none := by
  induction s with
  | nil => simp [strings.cut]
  | cons c cs ih =>
    by_cases hc : c = sep
    · subst hc
      simp [strings.cut, List.takeWhile, List.dropWhile]
    · have hne : ¬ sep = c := fun e => hc e.symm
      simp only [strings.cut, hc, if_false, ih, List.mem_cons, hne, false_or]
      by_cases hm : sep ∈ cs
      · simp [hm, List.takeWhile, List.dropWhile, hc]
      · simp [hm]

theorem strings.genSplit_two (sep : Char) (s : List Char) :
    strings.genSplit s sep 2 =
      if sep ∈ s then
        [s.takeWhile (fun c => decide (c ≠ sep)),
          (s.dropWhile (fun c => decide (c ≠ sep))).drop 1]
      else [s] := by
  cases s with
  | nil => simp [strings.genSplit, strings.genSplitLoop]
  | cons c cs =>
    have hlen : ¬ (cs.length + 1 + 1 < 2) := by omega
    have h1 : strings.genSplit (c :: cs) sep 2 = strings.genSplitLoop sep 1 (c :: cs) := by
      simp [strings.genSplit, hlen]
    rw [h1]
    simp only [strings.genSplitLoop, strings.cut_eq]
    by_cases hm : sep ∈ c :: cs
    · simp only [if_pos hm]
    · simp only [if_neg hm]

theorem strings.SplitN_two (prop : String) :
    strings.SplitN prop '=' 2 =
      if '=' ∈ prop.data then [(propertyOf prop).ID,
        String.mk ((prop.data.dropWhile (fun c => decide (c ≠ '='))).drop 1)]
      else [prop] := by
  unfold strings.SplitN
  rw [strings.genSplit_two]
  split <;> simp [propertyOf]

/-! ## Runs of `glob` with two callbacks -/

theorem globEmit_rel {σ τ : Type} (env : Env) (dir : String)
    (f : σ → String → Option σ) (g : τ → String → Option τ) (R : σ → τ → Prop)
    (hR : ∀ st t m st1, R st t → f st m = some st1 → ∃ t1, g t m = some t1 ∧ R st1 t1)
    (ms : List String) (st : σ) (t : τ) (h : R st t) :
    Run.rel R (globEmit env dir f ms st) (globEmit env dir g ms t) := by
  induction ms generalizing st t with
  | nil => exact h
  | cons m ms ih =>
    cases h1 : env.statIsDir m with
    | error e => simp only [globEmit, h1]; exact ⟨rfl, h⟩
    | ok b =>
      cases b with
      | true => simp only [globEmit, h1]; exact ih st t h
      | false =>
        cases h2 : env.abs dir with
        | error e => simp only [globEmit, h1, h2]; exact ⟨rfl, h⟩
        | ok q =>
          cases h3 : env.rel q m with
          | error e => simp only [globEmit, h1, h2, h3]; exact ⟨rfl, h⟩
          | ok x =>
            cases hf : f st (env.toSlash x) with
            | none => simp only [globEmit, h1, h2, h3, hf]; trivial
            | some st1 =>
              obtain ⟨t1, ht, hr⟩ := hR st t _ st1 h hf
              simp only [globEmit, h1, h2, h3, hf, ht]
              exact ih st1 t1 hr

theorem glob_rel {σ τ : Type} (env : Env) (dir : String)
    (f : σ → String → Option σ) (g : τ → String → Option τ) (fail : Bool) (R : σ → τ → Prop)
    (hR : ∀ st t m st1, R st t → f st m = some st1 → ∃ t1, g t m = some t1 ∧ R st1 t1)
    (pats : List String) (st : σ) (t : τ) (h : R st t) :
    Run.rel R (glob env dir f fail pats st) (glob env dir g fail pats t) := by
  induction pats generalizing st t with
  | nil => exact h
  | cons pat pats ih =>
    cases h0 : globExpand env dir pat fail (strings.Split pat ',') [] with
    | error e => simp only [glob, h0]; exact ⟨rfl, h⟩
    | ok ms =>
      have hm := globEmit_rel env dir f g R hR ms st t h
      cases h1 : globEmit env dir f ms st with
      | panic => simp only [glob, h0, h1]; trivial
      | fail e st1 =>
        rw [h1] at hm
        cases h2 : globEmit env dir g ms t with
        | ok t1 => rw [h2] at hm; exact hm.elim
        | panic => rw [h2] at hm; exact hm.elim
        | fail e1 t1 => rw [h2] at hm; simp only [glob, h0, h1, h2]; exact hm
      | ok st1 =>
        rw [h1] at hm
        cases h2 : globEmit env dir g ms t with
        | fail e1 t1 => rw [h2] at hm; exact hm.elim
        | panic => rw [h2] at hm; exact hm.elim
        | ok t1 =>
          rw [h2] at hm
          simp only [glob, h0, h1, h2]
          exact ih st1 t1 hm

/-- The exclude set that `addFiles` builds holds exactly the exclude matches. -/
theorem addFilesExclude_matches (env : Env) (dir : String) (pats out : List String)
    (h : glob env dir addFilesExclude false pats [] = Run.ok out) :
    ∀ m, m ∈ out ↔ m ∈ globMatches env dir false pats := by
  have hrel := glob_rel env dir addFilesExclude collect false
    (fun (o l : List String) => ∀ m, m ∈ o ↔ m ∈ l)
    (fun o l m o1 hol ho => by
      cases ho
      exact ⟨l ++ [m], rfl, fun x => by simp [hol x, or_comm]⟩)
    pats [] [] (fun _ => Iff.rfl)
  rw [h] at hrel
  unfold globMatches
  cases h2 : glob env dir collect false pats [] with
  | ok l => rw [h2] at hrel; exact hrel
  | fail e l => rw [h2] at hrel; exact hrel.elim
  | panic => rw [h2] at hrel; exact hrel.elim

/-- While the include callback of `addFiles` runs, every File of the tree is a
File of the manifest it started from or the File of an include match that is not
in the exclude set. -/
theorem addFilesInclude_matches (env : Env) (dir : String) (out pats : List String)
    (w0 w : WixManifest)
    (h : glob env dir (addFilesInclude env dir out) true pats w0 = Run.ok w ∨
      ∃ e, glob env dir (addFilesInclude env dir out) true pats w0 = Run.fail e w) :
    ∀ x ∈ w.Directory.allPaths,
      x ∈ w0.Directory.allPaths ∨
        ∃ m ∈ globMatches env dir true pats, m ∉ out ∧ x = env.toSlash (env.join dir m) := by
  have hrel := glob_rel env dir (addFilesInclude env dir out) collect true
    (fun (st : WixManifest) (l : List String) => ∀ x ∈ st.Directory.allPaths,
      x ∈ w0.Directory.allPaths ∨ ∃ m ∈ l, m ∉ out ∧ x = env.toSlash (env.join dir m))
    (fun st l m st1 hst hm => by
      refine ⟨l ++ [m], rfl, ?_⟩
      intro x hx
      unfold addFilesInclude at hm
      simp only at hm
      split at hm
      · cases hm
        rcases hst x hx with h1 | ⟨m1, h1, h2⟩
        · exact Or.inl h1
        · exact Or.inr ⟨m1, by simp [h1], h2⟩
      · rename_i hmo
        split at hm
        · cases hm
        · rename_i d hd
          cases hm
          rcases addFile_allPaths _ _ _ _ x hd hx with h1 | h1
          · rcases hst x h1 with h2 | ⟨m1, h2, h3⟩
            · exact Or.inl h2
            · exact Or.inr ⟨m1, by simp [h2], h3⟩
          · exact Or.inr ⟨m, by simp, hmo, h1⟩)
    pats w0 [] (fun x hx => Or.inl hx)
  unfold globMatches
  rcases h with h | ⟨e, h⟩
  · rw [h] at hrel
    cases h2 : glob env dir collect true pats [] with
    | ok l => rw [h2] at hrel; exact hrel
    | fail e l => rw [h2] at hrel; exact hrel.elim
    | panic => rw [h2] at hrel; exact hrel.elim
  · rw [h] at hrel
    cases h2 : glob env dir collect true pats [] with
    | ok l => rw [h2] at hrel; exact hrel.elim
    | fail e l => rw [h2] at hrel; exact hrel.2
    | panic => rw [h2] at hrel; exact hrel.elim

/-! ## The errors of `glob` -/

theorem globExpand_true (env : Env) (dir pattern : String)
    (hg : ∀ p, ∃ l, env.doublestarGlob p = Except.ok l) (files acc : List String) :
    ((∃ file ∈ files, env.doublestarGlob (env.join dir file) = Except.ok []) ∧
        globExpand env dir pattern true files acc
          = Except.error (GoError.filesDoNotExist pattern)) ∨
      ((¬ ∃ file ∈ files, env.doublestarGlob (env.join dir file) = Except.ok []) ∧
        ∃ ms, globExpand env dir pattern true files acc = Except.ok ms) := by
  induction files generalizing acc with
  | nil => exact Or.inr ⟨by simp, acc, rfl⟩
  | cons file files ih =>
    obtain ⟨l, hl⟩ := hg (env.join dir file)
    cases l with
    | nil =>
      left
      exact ⟨⟨file, by simp, hl⟩, by simp [globExpand, hl]⟩
    | cons x l =>
      have hstep : globExpand env dir pattern true (file :: files) acc =
          globExpand env dir pattern true files (acc ++ x :: l) := by
        simp [globExpand, hl]
      rw [hstep]
      rcases ih (acc ++ x :: l) with ⟨⟨g, hg1, hg2⟩, h2⟩ | ⟨h1, h2⟩
      · exact Or.inl ⟨⟨g, by simp [hg1], hg2⟩, h2⟩
      · refine Or.inr ⟨?_, h2⟩
        rintro ⟨g, hg1, hg2⟩
        rcases List.mem_cons.1 hg1 with rfl | hg1
        · rw [hl] at hg2; cases hg2
        · exact h1 ⟨g, hg1, hg2⟩

theorem globEmit_ok {σ : Type} (env : Env) (dir : String) (f : σ → String → Option σ)
    (henv : env.globCallsSucceed) (hf : ∀ st m, ∃ st1, f st m = some st1)
    (ms : List String) (st : σ) : ∃ st1, globEmit env dir f ms st = Run.ok st1 := by
  induction ms generalizing st with
  | nil => exact ⟨st, rfl⟩
  | cons m ms ih =>
    obtain ⟨b, hb⟩ := henv.2.1 m
    obtain ⟨a, ha⟩ := henv.2.2.1 dir
    obtain ⟨r, hr⟩ := henv.2.2.2 a m
    obtain ⟨st1, hst⟩ := hf st (env.toSlash r)
    cases b with
    | true => simp only [globEmit, hb]; exact ih st
    | false => simp only [globEmit, hb, ha, hr, hst]; exact ih st1

theorem glob_true {σ : Type} (env : Env) (dir : String) (f : σ → String → Option σ)
    (henv : env.globCallsSucceed) (hf : ∀ st m, ∃ st1, f st m = some st1)
    (pats : List String) (st : σ) :
    (someExpressionEmpty env dir pats ∧
        ∃ pat st1, glob env dir f true pats st = Run.fail (GoError.filesDoNotExist pat) st1) ∨
      (¬ someExpressionEmpty env dir pats ∧ ∃ st1, glob env dir f true pats st = Run.ok st1) := by
  induction pats generalizing st with
  | nil => exact Or.inr ⟨by simp [someExpressionEmpty], st, rfl⟩
  | cons pat pats ih =>
    rcases globExpand_true env dir pat henv.1 (strings.Split pat ',') [] with
      ⟨h1, h2⟩ | ⟨h1, ms, h2⟩
    · left
      exact ⟨⟨pat, by simp, h1⟩, pat, st, by simp [glob, h2]⟩
    · obtain ⟨st1, hst⟩ := globEmit_ok env dir f henv hf ms st
      have hstep : glob env dir f true (pat :: pats) st = glob env dir f true pats st1 := by
        simp [glob, h2, hst]
      rw [hstep]
      rcases ih st1 with ⟨⟨q, hq1, hq2⟩, h4⟩ | ⟨h3, h4⟩
      · exact Or.inl ⟨⟨q, by simp [hq1], hq2⟩, h4⟩
      · refine Or.inr ⟨?_, h4⟩
        rintro ⟨q, hq1, hq2⟩
        rcases List.mem_cons.1 hq1 with rfl | hq1
        · exact h1 hq2
        · exact h3 ⟨q, hq1, hq2⟩

theorem globExpand_false (env : Env) (dir pattern : String) (files acc : List String)
    (e : GoError) (h : globExpand env dir pattern false files acc = Except.error e) :
    ∃ t, e = GoError.lib t := by
  induction files generalizing acc with
  | nil => simp [globExpand] at h
  | cons file files ih =>
    simp only [globExpand] at h
    split at h
    · cases h; exact ⟨_, rfl⟩
    · simp only [Bool.false_and, Bool.false_eq_true, if_false] at h
      exact ih _ h

theorem globEmit_error {σ : Type} (env : Env) (dir : String) (f : σ → String → Option σ)
    (ms : List String) (st st1 : σ) (e : GoError)
    (h : globEmit env dir f ms st = Run.fail e st1) :
    (∃ t, e = GoError.lib t) ∨ ∃ t, e = GoError.exitText t 1 := by
  induction ms generalizing st with
  | nil => simp [globEmit] at h
  | cons m ms ih =>
    simp only [globEmit] at h
    split at h
    · cases h; exact Or.inl ⟨_, rfl⟩
    · exact ih st h
    · split at h
      · cases h; exact Or.inr ⟨_, rfl⟩
      · split at h
        · cases h; exact Or.inl ⟨_, rfl⟩
        · split at h
          · cases h
          · exact ih _ h

theorem glob_false {σ : Type} (env : Env) (dir : String) (f : σ → String → Option σ)
    (pats : List String) (st st1 : σ) (e : GoError)
    (h : glob env dir f false pats st = Run.fail e st1) :
    (∃ t, e = GoError.lib t) ∨ ∃ t, e = GoError.exitText t 1 := by
  induction pats generalizing st with
  | nil => simp [glob] at h
  | cons pat pats ih =>
    simp only [glob] at h
    split at h
    · rename_i e1 he
      cases h
      exact Or.inl (globExpand_false env dir pat _ _ _ he)
    · rename_i ms _
      split at h
      · exact ih _ h
      · rename_i e1 st2 he
        cases h
        exact globEmit_error env dir f ms st _ _ he
      · cases h

/-! ## Claims about `addFile` -/

/-- C1: for every tree `d`, file `f` and non-empty segment list `p`, `addFile`
returns a tree in which the directory reached from the root through the children
named by all segments but the last lists a File whose path is `f.Path`. -/
theorem addFile_lists_file (d : Directory) (f : File) (p : List String) (hp : p ≠ []) :
    ∃ r, addFile d f p = some r ∧
      ∃ t, descend r p.dropLast = some t ∧ ∃ g ∈ t.Files, g.Path = f.Path := by
  obtain ⟨r, hr, _, hpres⟩ := addFile_present f p hp d
  refine ⟨r, hr, ?_⟩
  unfold present at hpres
  cases ht : descend r p.dropLast with
  | none => simp [ht] at hpres
  | some t =>
    simp only [ht, Directory.hasFile, List.any_eq_true, decide_eq_true_eq] at hpres
    exact ⟨t, rfl, hpres⟩

theorem addFile_lists_file_witness :
    ["sub", "deep", "c.txt"] ≠ [] ∧
      ∃ r, addFile sampleTree ⟨"sub/deep/c.txt", none⟩ ["sub", "deep", "c.txt"] = some r ∧
        ∃ t, descend r ["sub", "deep", "c.txt"].dropLast = some t ∧
          ∃ g ∈ t.Files, g.Path = (File.mk "sub/deep/c.txt" none).Path :=
  ⟨by decide, addFile_lists_file sampleTree ⟨"sub/deep/c.txt", none⟩ _ (by decide)⟩

/-- C2: merging a list of matches with non-empty paths into any tree and then
merging the same list again returns exactly the tree of the first merge, and so
does merging any single one of the matches again; in particular
`addFile(addFile(d, f, p), f, p) = addFile(d, f, p)` for a non-empty `p`. -/
theorem mergeMatches_idempotent (d : Directory) (ms : List (File × List String))
    (f : File) (p : List String) (hms : ∀ m ∈ ms, m.2 ≠ []) (hp : p ≠ []) :
    (∃ r, mergeMatches d ms = some r ∧ mergeMatches r ms = some r ∧
        ∀ m ∈ ms, addFile r m.1 m.2 = some r) ∧
      ∃ r, addFile d f p = some r ∧ addFile r f p = some r := by
  obtain ⟨r, hr, _, hpr⟩ := mergeMatches_present ms hms d
  obtain ⟨r1, hr1, _, hp1⟩ := addFile_present f p hp d
  exact ⟨⟨r, hr, mergeMatches_of_present ms hms r hpr,
      fun m hm => addFile_of_present m.1 m.2 r (hpr m hm) (hms m hm)⟩,
    r1, hr1, addFile_of_present f p r1 hp1 hp⟩

theorem mergeMatches_idempotent_witness :
    (∀ m ∈ [((⟨"sub/c.txt", none⟩ : File), ["sub", "c.txt"]), (⟨"d.txt", none⟩, ["d.txt"])],
        m.2 ≠ []) ∧ ["sub", "c.txt"] ≠ [] ∧
      (∃ r, mergeMatches sampleTree
          [(⟨"sub/c.txt", none⟩, ["sub", "c.txt"]), (⟨"d.txt", none⟩, ["d.txt"])] = some r ∧
        mergeMatches r
          [(⟨"sub/c.txt", none⟩, ["sub", "c.txt"]), (⟨"d.txt", none⟩, ["d.txt"])] = some r ∧
        ∀ m ∈ [((⟨"sub/c.txt", none⟩ : File), ["sub", "c.txt"]), (⟨"d.txt", none⟩, ["d.txt"])],
          addFile r m.1 m.2 = some r) ∧
      ∃ r, addFile sampleTree ⟨"sub/c.txt", none⟩ ["sub", "c.txt"] = some r ∧
        addFile r ⟨"sub/c.txt", none⟩ ["sub", "c.txt"] = some r :=
  ⟨by decide, by decide,
    mergeMatches_idempotent sampleTree _ ⟨"sub/c.txt", none⟩ ["sub", "c.txt"]
      (by decide) (by decide)⟩

/-- C3: for every tree satisfying the Directory invariant at every level (no two
sibling Directories share a name, no two Files of one Directory share a path),
every file and every non-empty path, `addFile` returns a tree satisfying the
invariant at every level. -/
theorem addFile_preserves_wf (d : Directory) (f : File) (p : List String)
    (hw : d.wf = true) (hp : p ≠ []) : ∃ r, addFile d f p = some r ∧ r.wf = true := by
  obtain ⟨r, hr, _, _⟩ := addFile_present f p hp d
  exact ⟨r, hr, addFile_wf f p d r hw hr⟩

theorem addFile_preserves_wf_witness :
    sampleTree.wf = true ∧ ["sub", "c.txt"] ≠ [] ∧
      ∃ r, addFile sampleTree ⟨"sub/c.txt", none⟩ ["sub", "c.txt"] = some r ∧ r.wf = true :=
  ⟨by decide, by decide,
    addFile_preserves_wf sampleTree ⟨"sub/c.txt", none⟩ _ (by decide) (by decide)⟩

/-- C4: for every tree `d`, file `f` and non-empty path `p`, the tree returned by
`addFile` keeps every File and Directory of `d` at its position and in its order
(new entries come after the existing siblings), has at most one File more than
`d`, and has at most one subtree grafted below the directories of `d`, which is
a chain of directories. -/
theorem addFile_pure_merge (d : Directory) (f : File) (p : List String) (hp : p ≠ []) :
    ∃ r, addFile d f p = some r ∧ keeps d r = true ∧
      r.countFiles ≤ d.countFiles + 1 ∧
      (grafts d r).length ≤ 1 ∧ ∀ c ∈ grafts d r, c.isChain = true := by
  obtain ⟨r, hr, _, _⟩ := addFile_present f p hp d
  exact ⟨r, hr, addFile_keeps f p d r hr, addFile_countFiles f p d r hr,
    addFile_grafts f p d r hr⟩

theorem addFile_pure_merge_witness :
    ["sub", "deep", "c.txt"] ≠ [] ∧
      ∃ r, addFile sampleTree ⟨"sub/deep/c.txt", none⟩ ["sub", "deep", "c.txt"] = some r ∧
        keeps sampleTree r = true ∧ r.countFiles ≤ sampleTree.countFiles + 1 ∧
        (grafts sampleTree r).length ≤ 1 ∧ ∀ c ∈ grafts sampleTree r, c.isChain = true :=
  ⟨by decide, addFile_pure_merge sampleTree ⟨"sub/deep/c.txt", none⟩ _ (by decide)⟩

/-! ## Claims about `addFiles` -/

/-- C5, as stated, fails: with `/base/a.txt` listed in the manifest already and
`a.txt` matched by both the include and the exclude pattern, the File is still
in the tree after the merge. -/
theorem addFiles_excluded_still_listed :
    glob (scenarioEnv listedManifest) "/base" collect true ["a.txt"] [] = Run.ok ["a.txt"] ∧
      glob (scenarioEnv listedManifest) "/base" addFilesExclude false ["a.txt"] []
        = Run.ok ["a.txt"] ∧
      addFiles (scenarioEnv listedManifest) excludedArgs
        = some ⟨none, listedManifest, some listedManifest⟩ ∧
      (scenarioEnv listedManifest).toSlash ((scenarioEnv listedManifest).join "/base" "a.txt")
        ∈ listedManifest.Directory.allPaths := by
  decide

/-- C5, amended: when `addFiles` returns, every File of the tree in `wixFile` is
a File of the loaded manifest or has the joined path of an include match that is
not an exclude match, and the manifest written, if any, is that `wixFile`: a
match of both an include and an exclude pattern is never added. -/
theorem addFiles_adds_no_excluded (env : Env) (a : AddFilesArgs) (w0 : WixManifest)
    (r : AddFilesResult) (hload : env.load a.path = Except.ok w0)
    (hr : addFiles env a = some r) :
    (∀ x ∈ r.wixFile.Directory.allPaths,
        x ∈ w0.Directory.allPaths ∨
          ∃ m ∈ globMatches env a.dir true a.includes,
            m ∉ globMatches env a.dir false a.excludes ∧
              x = env.toSlash (env.join a.dir m)) ∧
      ∀ w, r.written = some w → w = r.wixFile := by
  have hzero : WixManifest.zero.Directory.allPaths = [] := by decide
  unfold addFiles at hr
  simp only [hload] at hr
  split at hr
  · cases hr; simp [hzero]
  · split at hr
    · cases hr; simp [hzero]
    · split at hr
      · cases hr
      · cases hr
        exact ⟨fun x hx => Or.inl hx, by simp⟩
      · rename_i out hout
        have hmem := addFilesExclude_matches env a.dir a.excludes out hout
        have hinv := addFilesInclude_matches env a.dir out a.includes w0
        split at hr
        · cases hr
        · rename_i e w he
          cases hr
          refine ⟨fun x hx => ?_, by simp⟩
          rcases hinv w (Or.inr ⟨e, he⟩) x hx with h1 | ⟨m, h1, h2, h3⟩
          · exact Or.inl h1
          · exact Or.inr ⟨m, h1, fun h => h2 ((hmem m).2 h), h3⟩
        · rename_i w he
          have hres : ∀ x ∈ w.Directory.allPaths,
              x ∈ w0.Directory.allPaths ∨
                ∃ m ∈ globMatches env a.dir true a.includes,
                  m ∉ globMatches env a.dir false a.excludes ∧
                    x = env.toSlash (env.join a.dir m) := by
            intro x hx
            rcases hinv w (Or.inl he) x hx with h1 | ⟨m, h1, h2, h3⟩
            · exact Or.inl h1
            · exact Or.inr ⟨m, h1, fun h => h2 ((hmem m).2 h), h3⟩
          split at hr
          · cases hr; exact ⟨hres, by simp⟩
          · split at hr <;> cases hr <;> exact ⟨hres, by simp⟩

theorem addFiles_adds_no_excluded_witness :
    (scenarioEnv WixManifest.zero).load scenarioArgs.path = Except.ok WixManifest.zero ∧
      addFiles (scenarioEnv WixManifest.zero) scenarioArgs =
        some ⟨none, { WixManifest.zero with Directory := scenarioTree },
          some { WixManifest.zero with Directory := scenarioTree }⟩ ∧
      (∀ x ∈ (AddFilesResult.mk none { WixManifest.zero with Directory := scenarioTree }
            (some { WixManifest.zero with Directory := scenarioTree })).wixFile.Directory.allPaths,
          x ∈ WixManifest.zero.Directory.allPaths ∨
            ∃ m ∈ globMatches (scenarioEnv WixManifest.zero) scenarioArgs.dir true
                scenarioArgs.includes,
              m ∉ globMatches (scenarioEnv WixManifest.zero) scenarioArgs.dir false
                  scenarioArgs.excludes ∧
                x = (scenarioEnv WixManifest.zero).toSlash
                  ((scenarioEnv WixManifest.zero).join scenarioArgs.dir m)) ∧
      ∀ w, (AddFilesResult.mk none { WixManifest.zero with Directory := scenarioTree }
            (some { WixManifest.zero with Directory := scenarioTree })).written = some w →
          w = (AddFilesResult.mk none { WixManifest.zero with Directory := scenarioTree }
            (some { WixManifest.zero with Directory := scenarioTree })).wixFile :=
  ⟨rfl, by decide,
    addFiles_adds_no_excluded (scenarioEnv WixManifest.zero) scenarioArgs WixManifest.zero
      _ rfl (by decide)⟩

/-- C6, the code at the failing input: the manifest lists `/base/a.txt`, the only
match, so a run without `--test` writes the manifest back unchanged, and yet the
run with `--test` returns the error `file list not up to date`, exit status 1;
it writes nothing. -/
theorem addFiles_test_fails_when_up_to_date :
    addFiles (scenarioEnv listedManifest) (listedArgs false)
        = some ⟨none, listedManifest, some listedManifest⟩ ∧
      addFiles (scenarioEnv listedManifest) (listedArgs true)
        = some ⟨some (GoError.errorf "file list not up to date"), listedManifest, none⟩ ∧
      exitStatus (some (GoError.errorf "file list not up to date")) = 1 := by
  decide

/-- C8, as stated, fails: in the scenario the File listed in the root does not
have the path `a.txt` and the File listed in `sub` does not have the path
`b.txt`. -/
theorem scenario_paths_not_relative :
    ∃ r, addFiles (scenarioEnv WixManifest.zero) scenarioArgs = some r ∧
      hasScenarioShape "a.txt" "b.txt" r.wixFile.Directory = false ∧
      r.wixFile.Directory.Files.map File.Path ≠ ["a.txt"] :=
  ⟨_, rfl, by decide, by decide⟩

/-- C8, amended: starting from an empty manifest, with the base directory `/base`
holding `a.txt`, `sub/b.txt` and `sub/c.tmp`, include `**/*.txt` and exclude
`sub/c.tmp`, `addFiles` succeeds and writes a tree whose root lists exactly one
File, with the joined path `/base/a.txt`, and has exactly one child Directory,
`sub`, which lists exactly one File, `/base/sub/b.txt`, and has no Directories. -/
theorem scenario_tree :
    addFiles (scenarioEnv WixManifest.zero) scenarioArgs =
        some ⟨none, { WixManifest.zero with Directory := scenarioTree },
          some { WixManifest.zero with Directory := scenarioTree }⟩ ∧
      hasScenarioShape "/base/a.txt" "/base/sub/b.txt" scenarioTree = true := by
  decide

/-! ## Claims about `glob` -/

/-- C7, as stated, fails in both directions.  For the group `a.txt,nope.txt` the
expressions taken together expand to one match, and yet `glob` with `fail =
true` returns the error `files ... do not exist`, because `nope.txt` alone
expands to nothing.  And with a relative base directory the group `nope.txt`
expands to nothing, and yet `glob` returns the error of `filepath.Rel` for the
match of the group before it. -/
theorem glob_fails_for_matching_group :
    (glob (scenarioEnv WixManifest.zero) "/base" collect true ["a.txt,nope.txt"] []
        = Run.fail (GoError.filesDoNotExist "a.txt,nope.txt") [] ∧
      groupExpansion (scenarioEnv WixManifest.zero) "/base" "a.txt,nope.txt"
        = ["/base/a.txt"]) ∧
      (glob relativeEnv "base" collect true ["a.txt", "nope.txt"] []
        = Run.fail (GoError.lib "Rel: can't make base/a.txt relative to /cwd/base") [] ∧
      groupExpansion relativeEnv "base" "nope.txt" = []) := by
  decide

/-- C7, amended: when every library call succeeds, `glob` with `fail = true`
returns the error `files ... do not exist` exactly when some single comma-joined
expression of some pattern group expands to zero matches; with `fail = false`
`glob` never returns that error, in any environment. -/
theorem glob_missing_iff {σ : Type} (env : Env) (dir : String)
    (f : σ → String → Option σ) (pats : List String) (st : σ)
    (henv : env.globCallsSucceed) (hf : ∀ st m, ∃ st1, f st m = some st1) :
    ((∃ pat st1, glob env dir f true pats st = Run.fail (GoError.filesDoNotExist pat) st1) ↔
        someExpressionEmpty env dir pats) ∧
      ∀ pat st1, glob env dir f false pats st ≠ Run.fail (GoError.filesDoNotExist pat) st1 := by
  refine ⟨?_, ?_⟩
  · rcases glob_true env dir f henv hf pats st with ⟨h1, h2⟩ | ⟨h1, st1, h2⟩
    · exact ⟨fun _ => h1, fun _ => h2⟩
    · constructor
      · rintro ⟨pat, st2, h3⟩
        rw [h2] at h3
        cases h3
      · intro h3
        exact absurd h3 h1
  · intro pat st1 h
    rcases glob_false env dir f pats st st1 _ h with ⟨t, ht⟩ | ⟨t, ht⟩ <;> cases ht

theorem glob_missing_iff_witness :
    plainEnv.globCallsSucceed ∧ (∀ st m, ∃ st1, collect st m = some st1) ∧
      ((∃ pat st1, glob plainEnv "/base" collect true ["a.txt", "a.txt,nope.txt"] []
            = Run.fail (GoError.filesDoNotExist pat) st1) ↔
          someExpressionEmpty plainEnv "/base" ["a.txt", "a.txt,nope.txt"]) ∧
      ∀ pat st1, glob plainEnv "/base" collect false ["a.txt", "a.txt,nope.txt"] []
        ≠ Run.fail (GoError.filesDoNotExist pat) st1 :=
  have h1 : plainEnv.globCallsSucceed :=
    ⟨fun p => by
        by_cases hp : p = "/base/a.txt"
        · exact ⟨[p], by simp [plainEnv, hp]⟩
        · exact ⟨[], by simp [plainEnv, hp]⟩,
      fun _ => ⟨false, rfl⟩, fun p => ⟨p, rfl⟩, fun _ t => ⟨t, rfl⟩⟩
  have h2 : ∀ (st : List String) (m : String), ∃ st1, collect st m = some st1 :=
    fun st m => ⟨st ++ [m], rfl⟩
  ⟨h1, h2, glob_missing_iff plainEnv "/base" collect ["a.txt", "a.txt,nope.txt"] [] h1 h2⟩

/-! ## Claims about `addProperties` and `generateWixCommands` -/

/-- C9: on every manifest and every list of strings `addProperties` equals the
reference: it returns the error `property definition must be of the form
Id=Value` exactly when some entry contains no `=`, and otherwise keeps the
existing properties and appends one Property for each entry, in input order,
whose ID is the text before the first `=` and whose Value is the text after
it. -/
theorem addProperties_eq_ref (wixFile : WixManifest) (properties : List String) :
    addPropertiesResult wixFile properties = addPropertiesRef wixFile properties := by
  induction properties generalizing wixFile with
  | nil => simp [addPropertiesResult, addProperties, addPropertiesRef]
  | cons prop rest ih =>
    by_cases hp : '=' ∈ prop.data
    · have hs := strings.SplitN_two prop
      rw [if_pos hp] at hs
      have hstep : addPropertiesResult wixFile (prop :: rest) =
          addPropertiesResult
            { wixFile with Properties := wixFile.Properties ++ [propertyOf prop] } rest := by
        simp only [addPropertiesResult, addProperties, hs]
        rfl
      rw [hstep, ih]
      simp only [addPropertiesRef, List.all_cons, hp, decide_True, Bool.true_and,
        List.map_cons, List.append_assoc, List.singleton_append]
    · have hs := strings.SplitN_two prop
      rw [if_neg hp] at hs
      simp [addPropertiesResult, addProperties, hs, addPropertiesRef, hp]

/-- C10: whenever the manifest that `generateWixCommands` loads needs an
identifier (`NeedGUID` is true), the function returns a `cli.ExitError` with
exit status 1, and it neither calls `wix.GenerateCmd` nor writes a file. -/
theorem generateWixCommands_rejects_incomplete (env : Env) (a : WixCmdArgs)
    (wixFile : WixManifest) (hload : env.load a.path = Except.ok wixFile)
    (hguid : env.needGUID wixFile = true) :
    (∃ text, (generateWixCommands env a).2 = some (GoError.exitText text 1)) ∧
      exitStatus (generateWixCommands env a).2 = 1 ∧
      ∀ e ∈ (generateWixCommands env a).1, e.isBuild = false := by
  unfold generateWixCommands
  split
  · exact ⟨⟨_, rfl⟩, rfl, by simp⟩
  · split
    · exact ⟨⟨_, rfl⟩, rfl, by simp⟩
    · split
      · exact ⟨⟨_, rfl⟩, rfl, by simp⟩
      · simp only [hload, hguid, if_true]
        exact ⟨⟨_, rfl⟩, rfl, by simp [Effect.isBuild]⟩

theorem generateWixCommands_rejects_incomplete_witness :
    guidEnv.load guidArgs.path = Except.ok WixManifest.zero ∧
      guidEnv.needGUID WixManifest.zero = true ∧
      generateWixCommands guidEnv guidArgs =
        ([Effect.println "The manifest needs Guid",
          Effect.println "To update your file automatically run:",
          Effect.println "     go-msi set-guid"],
          some (GoError.exitText "Cannot proceed, manifest file is incomplete" 1)) ∧
      (∃ text, (generateWixCommands guidEnv guidArgs).2 = some (GoError.exitText text 1)) ∧
      exitStatus (generateWixCommands guidEnv guidArgs).2 = 1 ∧
      ∀ e ∈ (generateWixCommands guidEnv guidArgs).1, e.isBuild = false :=
  ⟨rfl, rfl, by decide,
    generateWixCommands_rejects_incomplete guidEnv guidArgs WixManifest.zero rfl rfl⟩

/-! ## The pipeline of `quickMake` -/

theorem mem_stepsDone (steps : List MakeStep) (x : MakeStep × Option String)
    (h : x ∈ stepsDone steps) : x.2 = none ∧ x.1 ∈ steps := by
  unfold stepsDone at h
  obtain ⟨k, hk, rfl⟩ := List.mem_map.1 h
  exact ⟨rfl, hk⟩

theorem stepsDone_terminal (steps : List MakeStep) :
    TerminalOnFailure (stepsDone steps, none) := by
  intro k t h
  have := (mem_stepsDone steps _ h).1
  cases this

theorem failAt_terminal (before : List MakeStep) (k0 : MakeStep) (text : String)
    (hb : ∀ s ∈ before, s.rank < k0.rank) : TerminalOnFailure (failAt before k0 text) := by
  intro k t h
  have hkt : (k, some t) = (k0, some text) := by
    simp only [failAt, List.mem_append, List.mem_singleton] at h
    rcases h with h | h
    · have := (mem_stepsDone before _ h).1
      cases this
    · exact h
  cases hkt
  refine ⟨rfl, ?_, ?_⟩
  · intro x hx
    simp only [failAt, List.mem_append, List.mem_singleton] at hx
    rcases hx with hx | hx
    · exact Or.inr ⟨(mem_stepsDone before x hx).1, hb _ (mem_stepsDone before x hx).2⟩
    · exact Or.inl hx
  · intro hk x hx
    simp only [failAt, List.mem_append, List.mem_singleton] at hx
    rcases hx with hx | hx
    · intro hc
      have h1 := hb _ (mem_stepsDone before x hx).2
      rw [hc] at h1
      have h2 : k0.rank ≤ 13 := by cases k0 <;> decide
      have h3 : MakeStep.cleanupOutputDir.rank = 13 := rfl
      omega
    · rw [hx]; exact hk

theorem quickMake_terminal (env : BuildEnv) (a : MakeArgs) :
    TerminalOnFailure (quickMake env a) := by
  unfold quickMake
  dsimp only
  repeat' split
  all_goals first
    | exact failAt_terminal _ _ _ (by decide)
    | exact stepsDone_terminal _
    | (intro k t h; exact absurd h (List.not_mem_nil _))

/-- C11: in every run of `quickMake`, whatever the flags (`--keep` included),
when a step fails the function returns that step's error as a `cli.ExitError`
with code 1, every other step performed succeeded and comes before the failing
one in the pipeline, so none of the later steps is performed, and unless the
failing step is the final removal itself the final removal of the output
directory is not performed. -/
theorem quickMake_terminal_on_first_failure (env : BuildEnv) (a : MakeArgs)
    (k : MakeStep) (t : String) (h : (k, some t) ∈ (quickMake env a).1) :
    (quickMake env a).2 = some (GoError.exitText t 1) ∧
      (∀ x ∈ (quickMake env a).1, x = (k, some t) ∨ (x.2 = none ∧ x.1.rank < k.rank)) ∧
      (k ≠ MakeStep.cleanupOutputDir →
        ∀ x ∈ (quickMake env a).1, x.1 ≠ MakeStep.cleanupOutputDir) :=
  quickMake_terminal env a k t h

theorem quickMake_terminal_on_first_failure_witness :
    (MakeStep.normalize, some "version is required") ∈ (quickMake makeEnv makeArgs).1 ∧
      quickMake makeEnv makeArgs =
        failAt [MakeStep.load, MakeStep.setGuids, MakeStep.removeOutputDir,
          MakeStep.createOutputDir, MakeStep.license, MakeStep.addProperties]
          MakeStep.normalize "version is required" ∧
      (quickMake makeEnv makeArgs).2 = some (GoError.exitText "version is required" 1) ∧
      (∀ x ∈ (quickMake makeEnv makeArgs).1,
        x = (MakeStep.normalize, some "version is required") ∨
          (x.2 = none ∧ x.1.rank < MakeStep.normalize.rank)) ∧
      (MakeStep.normalize ≠ MakeStep.cleanupOutputDir →
        ∀ x ∈ (quickMake makeEnv makeArgs).1, x.1 ≠ MakeStep.cleanupOutputDir) :=
  ⟨by decide, by decide,
    quickMake_terminal_on_first_failure makeEnv makeArgs MakeStep.normalize
      "version is required" (by decide)⟩

/-! ## The changelog of `chocoMake` -/

theorem strings.cut_some (sep : Char) (s a b : List Char)
    (h : strings.cut sep s = some (a, b)) : s = a ++ sep :: b := by
  induction s generalizing a b with
  | nil => simp [strings.cut] at h
  | cons c cs ih =>
    by_cases hc : c = sep
    · simp only [strings.cut, hc, if_true, Option.some.injEq, Prod.mk.injEq] at h
      obtain ⟨rfl, rfl⟩ := h
      simp [hc]
    · simp only [strings.cut, hc, if_false] at h
      cases hcs : strings.cut sep cs with
      | none => simp [hcs] at h
      | some ab =>
        obtain ⟨a1, b1⟩ := ab
        simp only [hcs, Option.some.injEq, Prod.mk.injEq] at h
        obtain ⟨rfl, rfl⟩ := h
        simp [ih a1 b1 hcs]

theorem strings.genSplitLoop_ne_nil (sep : Char) (k : Nat) (s : List Char) :
    strings.genSplitLoop sep k s ≠ [] := by
  cases k with
  | zero => simp [strings.genSplitLoop]
  | succ k =>
    simp only [strings.genSplitLoop]
    split <;> simp

theorem strings.Join_cons (a : String) (l : List String) (sep : String) (hl : l ≠ []) :
    strings.Join (a :: l) sep = a ++ sep ++ strings.Join l sep := by
  cases l with
  | nil => exact absurd rfl hl
  | cons b rest => rfl

/-- Joining the slices of `genSplit` with the separator gives the string back,
however many separators were cut. -/
theorem strings.Join_genSplitLoop (sep : Char) (k : Nat) (s : List Char) :
    strings.Join ((strings.genSplitLoop sep k s).map String.mk) (String.mk [sep])
      = String.mk s := by
  induction k generalizing s with
  | zero => rfl
  | succ k ih =>
    simp only [strings.genSplitLoop]
    cases hc : strings.cut sep s with
    | none => rfl
    | some ab =>
      obtain ⟨a, b⟩ := ab
      simp only [List.map_cons]
      rw [strings.Join_cons _ _ _ (by simpa using strings.genSplitLoop_ne_nil sep k b), ih b,
        strings.cut_some sep s a b hc]
      apply String.ext
      simp [String.data_append]

theorem strings.Split_ne_nil (s : String) (sep : Char) : strings.Split s sep ≠ [] := by
  unfold strings.Split strings.genSplit
  simp only [show ¬ ((-1 : Int) = 0) by decide, if_false]
  simpa using strings.genSplitLoop_ne_nil sep _ s.data

theorem strings.Join_Split (s : String) (sep : Char) :
    strings.Join (strings.Split s sep) (String.mk [sep]) = s := by
  unfold strings.Split strings.genSplit
  simp only [show ¬ ((-1 : Int) = 0) by decide, if_false]
  exact strings.Join_genSplitLoop sep _ s.data

theorem changelogText_eq (out : String) :
    changelogText out =
      if (strings.Split out '\n').length > 2 then changelogDropTwo out else out := by
  unfold changelogText changelogDropTwo
  simp only
  split
  · rfl
  · exact strings.Join_Split out '\n'

/-- C12, as stated, fails: for the captured output `a\nb`, which has two lines,
`chocoMake` stores the output unchanged, while dropping the first two lines
would leave the empty text. -/
theorem changelog_short_output_kept :
    chocoMakeChangelog makeEnv "changelog" WixManifest.zero =
        Except.ok { WixManifest.zero with
          Choco := { WixManifest.zero.Choco with ChangeLog := "a\nb" } } ∧
      changelogDropTwo "a\nb" = "" ∧ changelogText "a\nb" ≠ changelogDropTwo "a\nb" :=
  ⟨rfl, by decide, by decide⟩

/-- C12, amended: when the changelog command runs, the changelog stored in the
manifest is the captured output with its first two lines dropped (split on the
newline, the first two removed, the rest joined with the newline) when the
output has more than two lines, and is the captured output itself when it has
at most two. -/
theorem chocoMake_changelog (env : BuildEnv) (changelogCmd : String)
    (wixFile : WixManifest) (out : String) (hcmd : changelogCmd ≠ "")
    (hrun : env.stringexecCommand changelogCmd = none)
    (hout : env.commandOutput changelogCmd = Except.ok out) :
    chocoMakeChangelog env changelogCmd wixFile =
      Except.ok { wixFile with
        Choco := { wixFile.Choco with
          ChangeLog :=
            if (strings.Split out '\n').length > 2 then changelogDropTwo out else out } } := by
  unfold chocoMakeChangelog
  simp only [hcmd, if_false, hrun, hout, changelogText_eq]

theorem chocoMake_changelog_witness :
    "changelog" ≠ "" ∧ makeEnv.stringexecCommand "changelog" = none ∧
      makeEnv.commandOutput "changelog" = Except.ok "a\nb" ∧
      chocoMakeChangelog makeEnv "changelog" WixManifest.zero =
        Except.ok { WixManifest.zero with
          Choco := { WixManifest.zero.Choco with
            ChangeLog :=
              if (strings.Split "a\nb" '\n').length > 2 then changelogDropTwo "a\nb"
              else "a\nb" } } :=
  ⟨by decide, rfl, rfl,
    chocoMake_changelog makeEnv "changelog" WixManifest.zero "a\nb" (by decide) rfl rfl⟩

/-! ## Totality of `addFile` -/

theorem addFile_isSome_iff (d : Directory) (f : File) (p : List String) :
    (addFile d f p).isSome = true ↔ p ≠ [] := by
  constructor
  · intro h hp
    rw [hp] at h
    simp [addFile] at h
  · intro hp
    obtain ⟨r, hr, _, _⟩ := addFile_present f p hp d
    simp [hr]

/-- C13: `addFile` returns on every tree, file and non-empty path, and the
access `path[0]` fails exactly on the empty path; on a path of two or more
segments the recursive call is on the path without its first segment; and
`strings.Split(match, "/")` has at least one element, so that the callback of
`addFiles` never fails. -/
theorem addFile_total (d : Directory) (f : File) (p : List String) (env : Env)
    (dir : String) (out : List String) (wixFile : WixManifest) (m s t : String)
    (rest : List String) :
    ((addFile d f p).isSome = true ↔ p ≠ []) ∧
      addFile d f [] = none ∧
      addFile d f (s :: t :: rest) =
        (addFileDirs s (fun c => addFile c f (t :: rest)) d.Directories).map
          (fun ds => Directory.mk d.Name d.Files ds) ∧
      strings.Split m '/' ≠ [] ∧
      (addFile d f (strings.Split m '/')).isSome = true ∧
      (addFilesInclude env dir out wixFile m).isSome = true := by
  refine ⟨addFile_isSome_iff d f p, rfl, rfl, strings.Split_ne_nil m '/',
    (addFile_isSome_iff d f _).2 (strings.Split_ne_nil m '/'), ?_⟩
  unfold addFilesInclude
  simp only
  split
  · rfl
  · have h := (addFile_isSome_iff wixFile.Directory
      { Path := env.toSlash (env.join dir m), ID := none } _).2 (strings.Split_ne_nil m '/')
    split
    · rename_i hn
      rw [hn] at h
      cases h
    · rfl

end Msi
